import Mathlib

/-!
Micro-benchmark programs: shallow embedding and checked properties.

Each program of the repository is a stand-alone `main`.  The embedding keeps one
namespace per source file:

* `Memtest`    : `src/memtest.cpp` (`formatBytes`, `main`)
* `MallocGlib` : `src/malloc-glib.c` (the container benchmark)
* `Pango`      : `src/pango-benchmark/pango-language-profile.c`
* `Pngbench`   : `src/pngbench.c`
* `PixmanCairo`: `src/pixman-cairo.c`

What a program receives from outside (command line, allocator answers, clock
readings, directory listings, file contents, results of `fread`) is an explicit
argument of its model; what it does to the outside (text written, exit status)
is the value the model returns.
-/

namespace Memtest

/-! ## `formatBytes` (memtest.cpp, lines 37-63) -/

/-- Behaviour the program runs into that C++ leaves to the target, together with
the two library renderings of doubles that are taken as given. -/
structure Target where
  /-- Value of `(int)x` for a double `x` whose truncation is larger than
  `INT_MAX`.  The conversion is undefined in C++; x86-64 (`cvttsd2si`) yields
  `INT_MIN`, targets with a saturating conversion yield `INT_MAX`. -/
  intOfLarge : Int
  /-- The text found when `suffix[num_suffix]`, one past the table, is read (the
  run is taken to go on after such a read). -/
  suffixPast : String
  /-- The `uint64` obtained from the double `SIZE_BYTES / (elapsed_ms / 1.0e3)`
  (arguments: `SIZE_BYTES`, `elapsed_ms`).  For `elapsed_ms = 0` the quotient is
  infinite or NaN and its conversion is undefined. -/
  rate : Nat → Int → Nat
  /-- Text that `operator<<` writes for a double holding the whole number given. -/
  showDouble : Int → String

/-- The x86-64 target as compiled by GCC.  An out-of-range conversion to `int`
yields `INT_MIN` (`cvttsd2si`).  `rate` is the exact quotient, truncated, which
the double computation matches up to its rounding; for a reading of 0 the
conversion of the infinite quotient yields 0 (`2^63` for NaN), for a negative
reading the negative quotient wraps.  `showDouble` gives the digits of the
number, which is what `operator<<` writes below one million. -/
def x86_64 : Target where
  intOfLarge := -2147483648
  suffixPast := ""
  rate := fun size ms =>
    if ms = 0 then (if size = 0 then 2 ^ 63 else 0)
    else if ms < 0 then (2 ^ 64 - size * 1000 / ms.natAbs) % 2 ^ 64
    else size * 1000 / ms.natAbs
  showDouble := fun n => toString n

/-- A target whose conversions saturate (for instance AArch64): an out-of-range
conversion to `int` yields `INT_MAX`. -/
def saturating : Target where
  intOfLarge := 2147483647
  suffixPast := ""
  rate := fun size ms =>
    if ms = 0 then (if size = 0 then 0 else 2 ^ 64 - 1)
    else if ms < 0 then 0
    else size * 1000 / ms.natAbs
  showDouble := fun n => toString n

/-- Conversion of a `uint64` to `double`: exact below `2^53`, otherwise rounded to
53 significant bits, ties to even.  The result is a whole number. -/
def u64ToDouble (n : Nat) : Nat :=
  if n < 2 ^ 53 then n
  else
    let e := Nat.log2 n - 52
    let q := n / 2 ^ e
    let r := n % 2 ^ e
    let half := 2 ^ (e - 1)
    if r < half then q * 2 ^ e
    else if half < r then (q + 1) * 2 ^ e
    else if q % 2 = 0 then q * 2 ^ e
    else (q + 1) * 2 ^ e

/-- The doubles `formatBytes` computes.  They are converted `uint64` values and
such values divided once by `1024.`; division by a power of two is exact in binary
floating point, so each is `num1024 / 1024` for a natural number `num1024`. -/
structure Dbl where
  num1024 : Nat
deriving DecidableEq, Repr

/-- The rational number a `Dbl` stands for. -/
def Dbl.toRat (d : Dbl) : ℚ := (d.num1024 : ℚ) / 1024

/-- Integer part of a `Dbl` (truncation toward zero). -/
def Dbl.trunc (d : Dbl) : Nat := d.num1024 / 1024

/-- The implicit conversion in `double dbl_s_byte = bytes;`. -/
def ofU64 (bytes : Nat) : Dbl := ⟨1024 * u64ToDouble bytes⟩

/-- The expression `bytes / 1024.` for a `uint64` `bytes`. -/
def divBy1024 (bytes : Nat) : Dbl := ⟨u64ToDouble bytes⟩

/-- The cast `(int)d`: truncation when the result fits an `int`, the target's
answer otherwise (the doubles here are never negative). -/
def toInt (T : Target) (d : Dbl) : Int :=
  if d.trunc ≤ 2147483647 then (d.trunc : Int) else T.intOfLarge

/-- The constant `num_suffix`. -/
def num_suffix : Nat := 5

/-- The table `suffix`. -/
def suffix : List String := ["B", "KB", "MB", "GB", "TB"]

/-- The variables of the `for` loop of `formatBytes`. -/
structure LoopState where
  bytes : Nat
  i : Nat
  dbl_s_byte : Dbl
deriving DecidableEq, Repr

/-- The loop condition `(int)(bytes / 1024.) > 0 && i < num_suffix`. -/
def loopCond (T : Target) (s : LoopState) : Bool :=
  decide (0 < toInt T (divBy1024 s.bytes)) && decide (s.i < num_suffix)

/-- One pass: the body `dbl_s_byte = bytes / 1024.0;` followed by the increment
`++i, bytes /= 1024.` (the quotient is converted back to `uint64`, which drops
its fraction; it is at most `2^54`, so the conversion is in range). -/
def loopStep (s : LoopState) : LoopState :=
  { dbl_s_byte := divBy1024 s.bytes
    i := s.i + 1
    bytes := (divBy1024 s.bytes).trunc }

/-- The `for` loop, run for at most `fuel` passes. -/
def formatLoop (T : Target) : Nat → LoopState → LoopState
  | 0, s => s
  | fuel + 1, s => if loopCond T s then formatLoop T fuel (loopStep s) else s

/-- State of `formatBytes` when its loop is left.  `num_suffix + 1` passes are
enough: every pass increments `i` and the condition needs `i < num_suffix`
(`formatLoop_exits`). -/
def formatBytesState (T : Target) (bytes : Nat) : LoopState :=
  formatLoop T (num_suffix + 1) { bytes := bytes, i := 0, dbl_s_byte := ofU64 bytes }

/-- The number of hundredths `%0.2f` prints for a `Dbl`: the exact value rounded
to two decimals, ties to even. -/
def hundredths (d : Dbl) : Nat :=
  let q := d.num1024 * 100 / 1024
  let r := d.num1024 * 100 % 1024
  if r < 512 then q
  else if 512 < r then q + 1
  else if q % 2 = 0 then q
  else q + 1

/-- Two decimal digits. -/
def twoDigits (f : Nat) : String :=
  String.mk [Nat.digitChar (f / 10 % 10), Nat.digitChar (f % 10)]

/-- The conversion `%0.2f` of a `Dbl`. -/
def fmt2 (d : Dbl) : String :=
  toString (hundredths d / 100) ++ "." ++ twoDigits (hundredths d % 100)

/-- The read `suffix[i]`. -/
def suffixAt (T : Target) (i : Nat) : String :=
  suffix.getD i T.suffixPast

/-- The constant `buf_len`. -/
def buf_len : Nat := 64

/-- The function `formatBytes`: `snprintf (buf, buf_len, "%0.2f%s", dbl_s_byte, suffix[i])`
keeps at most `buf_len - 1` characters; its result is never negative for this
format, so `buf` is what is returned. -/
def formatBytes (T : Target) (bytes : Nat) : String :=
  let s := formatBytesState T bytes
  String.mk ((fmt2 s.dbl_s_byte ++ suffixAt T s.i).data.take (buf_len - 1))

/-! ## `main` (memtest.cpp, lines 70-189) -/

/-- The characters `isspace` accepts in the C locale. -/
def isSpace (c : Char) : Bool :=
  c.toNat = 32 || (9 ≤ c.toNat && c.toNat ≤ 13)

/-- The library function `std::stoull (str)` (base 10), after the C++ standard:
`strtoull` skips leading white space, takes an optional sign and the longest run
of decimal digits; a leading `-` negates in `uint64`.  `none` stands for the
exception thrown when there is no digit (`std::invalid_argument`) or the digits
exceed `2^64 - 1` (`std::out_of_range`). -/
def stoull (str : String) : Option Nat :=
  let rest := str.data.dropWhile isSpace
  let signed : Bool × List Char :=
    match rest with
    | '-' :: r => (true, r)
    | '+' :: r => (false, r)
    | r => (false, r)
  let digits := signed.2.takeWhile Char.isDigit
  let value := digits.foldl (fun acc c => 10 * acc + (c.toNat - 48)) 0
  if digits = [] then none
  else if 2 ^ 64 ≤ value then none
  else some (if signed.1 then (2 ^ 64 - value) % 2 ^ 64 else value)

/-- What the program does to the outside, in order. -/
inductive Event where
  /-- One statement writing to `std::cout`, with the text written. -/
  | cout (text : String)
  /-- One statement writing to `std::cerr`, with the text written. -/
  | cerr (text : String)
  /-- A call `malloc (size)`; `ok = false` when it returned `NULL`. -/
  | malloc (size : Nat) (ok : Bool)
  | memset (size : Nat)
  | memcpy (size : Nat)
  | memmove (size : Nat)
  | free
  /-- The floating-point division `SIZE_BYTES / (elapsed_ms / 1.0e3)`. -/
  | fdiv (size : Nat) (elapsed_ms : Int)
deriving DecidableEq, Repr

/-- How the process ends. -/
inductive Outcome where
  /-- The function `main` returned `status`. -/
  | exit (status : Nat)
  /-- An exception left `main`: `std::terminate` aborts the process (`SIGABRT`),
  which is neither exit status 0 nor 1. -/
  | abort
deriving DecidableEq, Repr

/-- What one run receives from outside. -/
structure World where
  /-- The command line, `argv[0]` included; `argc` is its length. -/
  argv : List String
  /-- Whether the `k`-th call of `malloc` (`k = 0, 1, 2`) returns a non-null pointer. -/
  alloc : Nat → Bool
  /-- What `timer.elapsedMs ()` returns in phase `k` (0 malloc, 1 memset, 2 memcpy,
  3 memmove): a whole number of milliseconds. -/
  elapsed : Nat → Int

/-- The value of the divisor `elapsed_ms / 1.0e3`.  The double computed for it is
this quotient rounded, which is zero exactly when `elapsed_ms` is. -/
def divisor (elapsed_ms : Int) : ℚ := (elapsed_ms : ℚ) / 1000

/-- An event is a division whose divisor is zero. -/
def Event.DividesByZero : Event → Prop
  | .fdiv _ elapsed_ms => divisor elapsed_ms = 0
  | _ => False

instance : DecidablePred Event.DividesByZero := fun e =>
  match e with
  | .fdiv _ elapsed_ms => inferInstanceAs (Decidable (divisor elapsed_ms = 0))
  | .cout _ => isFalse id
  | .cerr _ => isFalse id
  | .malloc _ _ => isFalse id
  | .memset _ => isFalse id
  | .memcpy _ => isFalse id
  | .memmove _ => isFalse id
  | .free => isFalse id

/-- The value `SIZE_BYTES` has after lines 72-85; `none` when `std::stoull` throws. -/
def SIZE_BYTES (argv : List String) : Option Nat :=
  if 1 < argv.length then stoull (argv.getD 1 "") else some 1073741824

/-- The line written at lines 74-85. -/
def banner (T : Target) (argv : List String) (size : Nat) : String :=
  if 1 < argv.length then
    "Using buffer size from command line: " ++ formatBytes T size ++ "\n"
  else
    "To specify a custom buffer size: big_memcpy_test [SIZE_BYTES] \n" ++
      "Using built in buffer size: " ++ formatBytes T size ++ "\n"

/-- The text `"(" << formatBytes (SIZE_BYTES / (elapsed_ms / 1.0e3)) << " bytes/sec)"`;
the quotient is converted to the `uint64` parameter of `formatBytes`. -/
def rateText (T : Target) (size : Nat) (elapsed_ms : Int) : String :=
  "(" ++ formatBytes T (T.rate size elapsed_ms % 2 ^ 64) ++ " bytes/sec)"

/-- The line of the malloc phase (lines 104-106). -/
def mallocLine (T : Target) (size : Nat) (elapsed_ms : Int) : String :=
  "malloc for " ++ formatBytes T size ++ " took " ++ T.showDouble elapsed_ms ++ "ms" ++ "\n"

/-- The line of the memset, memcpy or memmove phase (lines 118-121, 143-146, 173-176). -/
def rateLine (T : Target) (name : String) (size : Nat) (elapsed_ms : Int) : String :=
  name ++ " for " ++ formatBytes T size ++ " took " ++ T.showDouble elapsed_ms ++ "ms " ++
    rateText T size elapsed_ms ++ "\n"

/-- The malloc phase, lines 93-107, when the allocation succeeds. -/
def mallocPhase (T : Target) (w : World) (size : Nat) : List Event :=
  [.malloc size true, .cout (mallocLine T size (w.elapsed 0))]

/-- The memset phase, lines 111-122. -/
def memsetPhase (T : Target) (w : World) (size : Nat) : List Event :=
  [.memset size, .fdiv size (w.elapsed 1), .cout (rateLine T "memset" size (w.elapsed 1))]

/-- The memcpy phase, lines 126-151, when its allocation succeeds. -/
def memcpyPhase (T : Target) (w : World) (size : Nat) : List Event :=
  [.malloc size true, .memset size, .memcpy size, .fdiv size (w.elapsed 2),
    .cout (rateLine T "memcpy" size (w.elapsed 2)), .free]

/-- The memmove phase, lines 155-181, when its allocation succeeds. -/
def memmovePhase (T : Target) (w : World) (size : Nat) : List Event :=
  [.malloc size true, .memset size, .memmove size, .fdiv size (w.elapsed 3),
    .cout (rateLine T "memmove" size (w.elapsed 3)), .free]

/-- The function `main`: the events of the run and how it ends. -/
def main (T : Target) (w : World) : List Event × Outcome :=
  match SIZE_BYTES w.argv with
  | none => ([], .abort)
  | some size =>
    let e0 : List Event := [.cout (banner T w.argv size)]
    if w.alloc 0 = false then
      (e0 ++ [.malloc size false,
        .cerr ("ERROR: malloc of " ++ toString size ++ " returned NULL!" ++ "\n")], .exit 1)
    else
      let e2 := e0 ++ mallocPhase T w size ++ memsetPhase T w size
      if w.alloc 1 = false then
        (e2 ++ [.malloc size false,
          .cerr ("ERROR: malloc of " ++ toString size ++ " for memcpy test" ++
            " returned NULL!" ++ "\n")], .exit 1)
      else
        let e3 := e2 ++ memcpyPhase T w size
        if w.alloc 2 = false then
          (e3 ++ [.malloc size false,
            .cerr ("ERROR: malloc of " ++ toString size ++ " for memmove test" ++
              " returned NULL!" ++ "\n")], .exit 1)
        else
          (e3 ++ memmovePhase T w size ++ [.free], .exit 0)

/-- A run of size 1048576 in which every allocation succeeds and every phase takes 5 ms. -/
def worldMiB : World where
  argv := ["memtest", "1048576"]
  alloc := fun _ => true
  elapsed := fun _ => 5

/-- A run of size 1048576 in which every allocation succeeds and no phase takes a
whole millisecond. -/
def worldInstant : World where
  argv := ["memtest", "1048576"]
  alloc := fun _ => true
  elapsed := fun _ => 0

/-- A run whose argument is not a number. -/
def worldNotANumber : World where
  argv := ["memtest", "abc"]
  alloc := fun _ => true
  elapsed := fun _ => 5

/-- A run without argument whose second allocation fails. -/
def worldSecondAllocFails : World where
  argv := ["memtest"]
  alloc := fun k => decide (k ≠ 1)
  elapsed := fun _ => 5

end Memtest

namespace MallocGlib

/-! ## The container benchmark (malloc-glib.c) -/

/-- The containers that have a benchmark function. -/
inductive Container where
  | array
  | list
  | hashTable
  | tree
deriving DecidableEq, Repr

/-- The operations a benchmark function times. -/
inductive Operation where
  | insertion
  | lookup
  | deletion
deriving DecidableEq, Repr

/-- What the program does, in order. -/
inductive Event where
  /-- A call of `clock ()` and the value it returned. -/
  | clock (value : Int)
  /-- A loop over a container: the operation, the library call of its body and the
  number of passes. -/
  | loop (container : Container) (operation : Operation) (call : String) (passes : Nat)
  /-- Another library call on a container (creation, release). -/
  | call (fn : String)
  /-- The statement `printf (format, (double)(end - start) / CLOCKS_PER_SEC)`, with
  `ticks = end - start`. -/
  | printf (format : String) (ticks : Int)
deriving DecidableEq, Repr

/-- The constant `num_entries` of `garray_bench`, `glist_bench` and `ghashtable_bench`. -/
def num_entries : Nat := 100000000

/-- The constant `num_entries` of `gtree_bench`. -/
def tree_num_entries : Nat := 50000000

/-- The function `garray_bench`; `clk j` is what the `j`-th call of `clock ()` of
the run returns and `k` the number of calls made before. -/
def garray_bench (clk : Nat → Int) (k : Nat) : List Event :=
  [ .call "g_array_new",
    .clock (clk k),
    .loop .array .insertion "g_array_append_val" num_entries,
    .clock (clk (k + 1)),
    .printf "GArray: Insertion (append) time: %f seconds\n" (clk (k + 1) - clk k),
    .clock (clk (k + 2)),
    .loop .array .deletion "g_array_remove_index" num_entries,
    .clock (clk (k + 3)),
    .printf "GArray: Deletion time: %f seconds\n" (clk (k + 3) - clk (k + 2)),
    .call "g_array_free" ]

/-- The function `glist_bench`.  The traversal and the deletion loop run until the
list is exhausted, once per node prepended. -/
def glist_bench (clk : Nat → Int) (k : Nat) : List Event :=
  [ .clock (clk k),
    .loop .list .insertion "g_list_prepend" num_entries,
    .clock (clk (k + 1)),
    .printf "GList: Insertion (prepend) time: %f seconds\n" (clk (k + 1) - clk k),
    .clock (clk (k + 2)),
    .loop .list .lookup "l->next" num_entries,
    .clock (clk (k + 3)),
    .printf "GList: Lookup (traverse) time: %f seconds\n" (clk (k + 3) - clk (k + 2)),
    .clock (clk (k + 4)),
    .loop .list .deletion "g_list_delete_link" num_entries,
    .clock (clk (k + 5)),
    .printf "GList: Deletion time: %f seconds\n" (clk (k + 5) - clk (k + 4)) ]

/-- The function `ghashtable_bench`. -/
def ghashtable_bench (clk : Nat → Int) (k : Nat) : List Event :=
  [ .call "g_hash_table_new",
    .clock (clk k),
    .loop .hashTable .insertion "g_hash_table_insert" num_entries,
    .clock (clk (k + 1)),
    .printf "GHashTable: Insertion time: %f seconds\n" (clk (k + 1) - clk k),
    .clock (clk (k + 2)),
    .loop .hashTable .lookup "g_hash_table_lookup" num_entries,
    .clock (clk (k + 3)),
    .printf "GHashTable: Lookup time: %f seconds\n" (clk (k + 3) - clk (k + 2)),
    .call "g_hash_table_destroy" ]

/-- The function `gtree_bench` (its call in `main` is commented out). -/
def gtree_bench (clk : Nat → Int) (k : Nat) : List Event :=
  [ .call "g_tree_new",
    .clock (clk k),
    .loop .tree .insertion "g_tree_insert" tree_num_entries,
    .clock (clk (k + 1)),
    .printf "GTree: Insertion time: %f seconds\n" (clk (k + 1) - clk k),
    .clock (clk (k + 2)),
    .loop .tree .lookup "g_tree_lookup" tree_num_entries,
    .clock (clk (k + 3)),
    .printf "GTree: Lookup time: %f seconds\n" (clk (k + 3) - clk (k + 2)),
    .clock (clk (k + 4)),
    .loop .tree .deletion "g_tree_remove" tree_num_entries,
    .clock (clk (k + 5)),
    .printf "GTree: Deletion time: %f seconds\n" (clk (k + 5) - clk (k + 4)),
    .call "g_tree_destroy" ]

/-- The function `main`: the events of the run and the status returned. -/
def main (clk : Nat → Int) : List Event × Nat :=
  (garray_bench clk 0 ++ glist_bench clk 4 ++ ghashtable_bench clk 10, 0)

/-- The timed phases of a run, in order: a loop that stands between two calls of
`clock ()` whose difference the next statement prints. -/
def phases : List Event → List (Container × Operation)
  | .clock _ :: .loop c o _ _ :: .clock _ :: .printf _ _ :: rest => (c, o) :: phases rest
  | _ :: rest => phases rest
  | [] => []

/-- The timing lines of a run, in order: format and number of ticks printed. -/
def timingLines : List Event → List (String × Int)
  | [] => []
  | .printf format ticks :: rest => (format, ticks) :: timingLines rest
  | _ :: rest => timingLines rest

/-- A clock that advances by one tick per call. -/
def ticking : Nat → Int := fun k => (k : Int)

end MallocGlib

namespace Pango

/-! ## The text-shaping benchmark (pango-language-profile.c) -/

/-- The struct `String`: one string of a data file.  Bytes are numbers below 256. -/
structure Str where
  str : List Nat
  num_chars : Int
  num_bytes : Int
  valid : Bool
deriving DecidableEq, Repr

/-- The struct `StringSet`; `strings` holds the `num_strings` entries in use. -/
structure StringSet where
  num_strings : Nat
  strings_raw : List Nat
  strings : List Str
deriving DecidableEq, Repr

/-- The struct `LanguageResults`; `elapsed` is kept as the number of clock ticks
that `user_timer_elapsed` divides by the ticks per second. -/
structure LanguageResults where
  elapsed : Int
  total_strings : Int
  total_chars : Int
deriving DecidableEq, Repr

/-- What the run receives from outside. -/
structure Env where
  /-- The display can be opened: `gtk_init` returns (otherwise it ends the process
  with status 1). -/
  display : Bool
  /-- The result of `g_option_context_parse`. -/
  usageOk : Bool
  /-- Whether `fopen (option_output, "w")` succeeds. -/
  outputOpens : String → Bool
  /-- The entries `g_dir_read_name` returns for a directory, in order; `none` when
  `g_dir_open` fails. -/
  listing : String → Option (List String)
  /-- The bytes `g_file_get_contents` reads; `none` when it fails. -/
  contents : String → Option (List Nat)
  /-- The library function `g_build_filename (dir, entry, NULL)`. -/
  buildFilename : String → String → String
  /-- The library function `g_utf8_strlen (str, -1)`, as stored in an `int`. -/
  utf8Strlen : List Nat → Int
  /-- The library function `g_utf8_validate (str, -1, NULL)`. -/
  utf8Validate : List Nat → Bool
  /-- User-time ticks that pass during the `k`-th call of `measure_strings`. -/
  userTicks : Nat → Int
  /-- The text of `error->message` for a path. -/
  errorMessage : String → String
  /-- The program name `argv[0]`. -/
  progName : String

/-- An argument of a `fprintf` call. -/
inductive Arg where
  | none
  | str (s : String)
  /-- A `double` holding a number of clock ticks divided by the ticks per second. -/
  | seconds (ticks : Int)
  | long (n : Int)
deriving DecidableEq, Repr

/-- A write: the stream (`toStderr`, or else `output_file`), the format and its argument. -/
structure Out where
  toStderr : Bool
  format : String
  arg : Arg
deriving DecidableEq, Repr

/-- What a part of the program wrote, and the exit status if it ended the process. -/
abbrev Run := List Out × Option Nat

/-- Sequencing: the second part runs only if the first did not end the process. -/
def Run.andThen (r : Run) (next : Run) : Run :=
  match r.2 with
  | some status => (r.1, some status)
  | Option.none => (r.1 ++ next.1, next.2)

/-- The function `error_and_exit`, for a message already put together. -/
def error_and_exit (msg : String) : Run :=
  ([⟨true, "%s", .str msg⟩, ⟨true, "\n", .none⟩], some 1)

/-- The bytes of the C string that starts at offset `start` of the buffer (which
`g_file_get_contents` ends with a NUL byte of its own). -/
def cstr (raw : List Nat) (start : Nat) : List Nat :=
  (raw.drop start).takeWhile (fun b => b ≠ 0)

/-- The bytes of the text `POT-Creation`. -/
def potCreation : List Nat := "POT-Creation".data.map Char.toNat

/-- The value an `int` takes when a number is stored in it: two's complement on
32 bits. -/
def wrapInt (n : Int) : Int := (n + 2 ^ 31) % 2 ^ 32 - 2 ^ 31

/-- The entry `string_set_read` writes for the C string `s` (lines 131-135). -/
def mkStr (env : Env) (s : List Nat) : Str where
  str := s
  num_chars := env.utf8Strlen s
  num_bytes := wrapInt (s.length : Int)
  valid := !decide (potCreation <:+: s) && env.utf8Validate s

/-- The variables of the loop of `string_set_read`. -/
structure ReadState where
  string_start : Nat
  max_strings : Nat
  strings : List Str
deriving DecidableEq, Repr

/-- One pass of the loop of `string_set_read` (lines 125-138), with `p` at offset
`p`; `num_strings` is the length of `strings`. -/
def readStep (env : Env) (raw : List Nat) (st : ReadState) (p : Nat) : ReadState :=
  if raw.getD p 0 = 0 then
    { string_start := p + 1
      max_strings := if st.strings.length = st.max_strings then st.max_strings * 2
        else st.max_strings
      strings := st.strings ++ [mkStr env (cstr raw st.string_start)] }
  else st

/-- The function `string_set_read`; `none` when the file cannot be read (the
caller then ends the process through `error_and_exit`). -/
def string_set_read (env : Env) (filename : String) : Option StringSet :=
  match env.contents filename with
  | Option.none => Option.none
  | some raw =>
    let st := (List.range raw.length).foldl (readStep env raw)
      { string_start := 0, max_strings := 1024, strings := [] }
    some { num_strings := st.strings.length, strings_raw := raw, strings := st.strings }

/-- The value of a `long` after an addition: two's complement on 64 bits. -/
def wrapLong (n : Int) : Int := (n + 2 ^ 63) % 2 ^ 64 - 2 ^ 63

/-- The body of the inner loop of `measure_strings` for one string. -/
def measureOne (r : LanguageResults) (s : Str) : LanguageResults :=
  if s.valid then
    { r with total_strings := wrapLong (r.total_strings + 1)
             total_chars := wrapLong (r.total_chars + s.num_chars) }
  else r

/-- The function `measure_strings`; `ticks` is the user time that passes. -/
def measure_strings (set : StringSet) (num_iters : Int) (ticks : Int) : LanguageResults :=
  let start : LanguageResults := { elapsed := 0, total_strings := 0, total_chars := 0 }
  let done := Nat.iterate (fun r => set.strings.foldl measureOne r) num_iters.toNat start
  { done with elapsed := ticks }

/-- The options after parsing (lines 189-193). -/
structure Options where
  option_langs : Option (List String)
  option_data_dir : String
  option_name : String
  option_output : Option String
  option_num_iterations : Int

/-- The function `run_one_language`, as the `k`-th measurement of the run. -/
def run_one_language (env : Env) (opts : Options) (k : Nat) (lang_name filename : String) : Run :=
  match string_set_read env filename with
  | Option.none =>
    Run.andThen ([⟨true, "Processing %s\n", .str filename⟩], Option.none)
      (error_and_exit ("Could not read the strings file " ++ filename ++ ": " ++
        env.errorMessage filename))
  | some set =>
    let results := measure_strings set opts.option_num_iterations (env.userTicks k)
    ([ ⟨true, "Processing %s\n", .str filename⟩,
       ⟨false, "  <language>\n", .none⟩,
       ⟨false, "    <name>%s</name>\n", .str lang_name⟩,
       ⟨false, "    <elapsed>%f</elapsed>\n", .seconds results.elapsed⟩,
       ⟨false, "    <total_strings>%ld</total_strings>\n", .long results.total_strings⟩,
       ⟨false, "    <total_chars>%ld</total_chars>\n", .long results.total_chars⟩,
       ⟨false, "  </language>\n", .none⟩ ], Option.none)

/-- The test `g_str_has_suffix (entry, ".dat")`. -/
def hasDatSuffix (entry : String) : Bool :=
  ".dat".data.isSuffixOf entry.data

/-- The copy `g_strndup (entry, strlen (entry) - 4)`. -/
def langNameOf (entry : String) : String :=
  String.mk (entry.data.take (entry.data.length - 4))

/-- The loop of `run_all_languages` over the entries still to be read, `k`
measurements having been made. -/
def runEntries (env : Env) (opts : Options) : Nat → List String → Run
  | _, [] => ([], Option.none)
  | k, entry :: rest =>
    if hasDatSuffix entry then
      Run.andThen
        (run_one_language env opts k (langNameOf entry)
          (env.buildFilename opts.option_data_dir entry))
        (runEntries env opts (k + 1) rest)
    else runEntries env opts k rest

/-- The function `run_all_languages`. -/
def run_all_languages (env : Env) (opts : Options) : Run :=
  match env.listing opts.option_data_dir with
  | Option.none =>
    error_and_exit ("Could not open directory: " ++ env.errorMessage opts.option_data_dir)
  | some entries => runEntries env opts 0 entries

/-- The loop of `run_some_languages`. -/
def runLangs (env : Env) (opts : Options) : Nat → List String → Run
  | _, [] => ([], Option.none)
  | k, lang :: rest =>
    Run.andThen
      (run_one_language env opts k lang
        (env.buildFilename opts.option_data_dir (lang ++ ".dat")))
      (runLangs env opts (k + 1) rest)

/-- The function `run_some_languages`. -/
def run_some_languages (env : Env) (opts : Options) : Run :=
  runLangs env opts 0 (opts.option_langs.getD [])

/-- The function `have_all_languages`. -/
def have_all_languages (langs : List String) : Bool :=
  langs.any (fun l => l == "ALL")

/-- The part of `main` that writes the report (lines 313-322). -/
def report (env : Env) (opts : Options) : Run :=
  Run.andThen
    ([ ⟨false, "<?xml version=\"1.0\"?>\n", .none⟩,
       ⟨false, "<pango-benchmark>\n", .none⟩,
       ⟨false, "  <name>%s</name>\n", .str opts.option_name⟩ ], Option.none)
    (Run.andThen
      (match opts.option_langs with
        | Option.none => run_all_languages env opts
        | some langs =>
          if have_all_languages langs then run_all_languages env opts
          else run_some_languages env opts)
      ([⟨false, "</pango-benchmark>\n", .none⟩], some 0))

/-- The function `main`, for the options the command line was parsed to. -/
def main (env : Env) (opts : Options) : Run :=
  if env.display = false then ([], some 1)
  else if env.usageOk = false then
    ([⟨true, "Invalid usage; type \"%s --help\" for instructions.\n", .str env.progName⟩], some 1)
  else
    match opts.option_output with
    | Option.none => report env opts
    | some path =>
      if env.outputOpens path then report env opts
      else error_and_exit ("Could not create output file " ++ path)

/-- The number of `<language>` blocks opened in what was written. -/
def languageBlocks (outs : List Out) : Nat :=
  (outs.filter (fun o => !o.toStderr && o.format == "  <language>\n")).length

/-- An environment with the data directory `po-data` holding `de.dat`, `README`
and `fr.dat`, of which `fr.dat` cannot be read. -/
def envUnreadable : Env where
  display := true
  usageOk := true
  outputOpens := fun _ => true
  listing := fun dir => if dir = "po-data" then some ["de.dat", "README", "fr.dat"] else Option.none
  contents := fun path =>
    if path = "po-data/de.dat" then some [72, 105, 0, 80, 79, 84, 45, 67, 114, 101, 97, 116, 105, 111, 110, 0]
    else Option.none
  buildFilename := fun dir entry => dir ++ "/" ++ entry
  utf8Strlen := fun s => (s.length : Int)
  utf8Validate := fun _ => true
  userTicks := fun _ => 3
  errorMessage := fun _ => "Permission denied"
  progName := "pango-language-profile"

/-- The same directory with every file readable. -/
def envReadable : Env :=
  { envUnreadable with
    contents := fun path =>
      if path = "po-data/de.dat" then some [72, 105, 0, 80, 79, 84, 45, 67, 114, 101, 97, 116, 105, 111, 110, 0]
      else if path = "po-data/fr.dat" then some [79, 117, 105, 0, 78, 111, 110, 0, 120]
      else Option.none }

end Pango

namespace Pngbench

/-! ## The image-decode benchmark (pngbench.c) -/

/-- The value an `int` takes when a number is stored in it: two's complement on
32 bits. -/
def toInt32 (n : Int) : Int := (n + 2 ^ 31) % 2 ^ 32 - 2 ^ 31

/-- What the run receives from outside. -/
structure World where
  /-- The command line, `argv[0]` included; `argc` is its length. -/
  argv : List String
  /-- Whether `fopen (filename, "r")` returns a stream. -/
  fopenOk : Bool
  /-- The value `len` holds after `len = ftell (f)`. -/
  len : Int
  /-- The number of bytes the `k`-th call of `fread` has at hand; the call returns
  this number, capped by the number of bytes asked for. -/
  reads : Nat → Nat
  /-- Whether libpng decodes the buffer without calling `png_Error` (which ends
  the process with status 1). -/
  decodes : Bool
  /-- The clock reading before the decoding loop: `tv_sec`, `tv_nsec`. -/
  before : Int × Int
  /-- The clock reading after the decoding loop: `tv_sec`, `tv_nsec`. -/
  after : Int × Int

/-- How the file-reading loop (lines 207-218) is left. -/
inductive LoopEnd where
  /-- The condition `remaining` became zero. -/
  | complete
  /-- The branch `read < 0` called `exit (1)`. -/
  | exit1
deriving DecidableEq, Repr

/-- The file-reading loop, its condition evaluated at most `fuel` times, `k` calls
of `fread` having been made; `none` when the loop is still running then. -/
def readLoop (reads : Nat → Nat) : Nat → Nat → Int → Option LoopEnd
  | 0, _, _ => none
  | fuel + 1, k, remaining =>
    if remaining = 0 then some .complete
    else
      let block := remaining
      let asked := (block % 2 ^ 64).toNat
      let read := toInt32 (min (reads k : Int) (asked : Int))
      if read < 0 then some .exit1
      else readLoop reads fuel (k + 1) (toInt32 (remaining - read))

/-- The elapsed time of lines 238-245: `secs` and `nsecs` after the borrow step. -/
def elapsed (before after : Int × Int) : Int × Int :=
  let secs := toInt32 (after.1 - before.1)
  let nsecs := toInt32 (after.2 - before.2)
  if nsecs < 0 then (toInt32 (secs - 1), toInt32 (nsecs + 1000000000)) else (secs, nsecs)

/-- The function `main`, the condition of the file-reading loop evaluated at most
`fuel` times: the exit status, or `none` when the loop is still running then. -/
def main (w : World) (fuel : Nat) : Option Nat :=
  if w.argv.length < 2 then some 1
  else if w.fopenOk = false then some 1
  else
    match readLoop w.reads fuel 0 w.len with
    | none => none
    | some .exit1 => some 1
    | some .complete => if w.decodes then some 0 else some 1

/-- A file of 10 bytes whose reads deliver nothing (for instance one cut short
after its length was taken). -/
def worldShortRead : World where
  argv := ["pngbench", "test.png"]
  fopenOk := true
  len := 10
  reads := fun _ => 0
  decodes := true
  before := (0, 0)
  after := (1, 0)

/-- A file of 10 bytes delivered in two reads of 6 and 4 bytes. -/
def worldTwoReads : World where
  argv := ["pngbench", "test.png"]
  fopenOk := true
  len := 10
  reads := fun k => if k = 0 then 6 else 4
  decodes := true
  before := (0, 0)
  after := (1, 0)

end Pngbench

namespace PixmanCairo

/-! ## The rasterization benchmark (pixman-cairo.c) -/

/-- The value an `int` takes when a number is stored in it: two's complement on
32 bits. -/
def toInt32 (n : Int) : Int := (n + 2 ^ 31) % 2 ^ 32 - 2 ^ 31

/-- The characters `isspace` accepts in the C locale. -/
def isSpace (c : Char) : Bool :=
  c.toNat = 32 || (9 ≤ c.toNat && c.toNat ≤ 13)

/-- The library function `atoi (nptr)`, as glibc has it: `(int) strtol (nptr, NULL, 10)`.
Leading white space is skipped, an optional sign and the longest run of decimal
digits are taken; without a digit the result is 0; `strtol` clamps to the range
of `long` and the conversion to `int` keeps the low 32 bits. -/
def atoi (nptr : String) : Int :=
  let rest := nptr.data.dropWhile isSpace
  let signed : Bool × List Char :=
    match rest with
    | '-' :: r => (true, r)
    | '+' :: r => (false, r)
    | r => (false, r)
  let digits := signed.2.takeWhile Char.isDigit
  let value : Int := digits.foldl (fun acc c => 10 * acc + ((c.toNat - 48 : Nat) : Int)) 0
  let long : Int := if signed.1 then max (-value) (-2 ^ 63) else min value (2 ^ 63 - 1)
  toInt32 long

/-- What one run receives from outside. -/
structure World where
  /-- The command line, `argv[0]` included; `argc` is its length. -/
  argv : List String
  /-- What the `k`-th call of `rand ()` returns: a number from 0 to `RAND_MAX`. -/
  rand : Nat → Nat

/-- What the program does, in order. -/
inductive Event where
  /-- An evaluation of `rand () % divisor`. -/
  | rem (dividend : Int) (divisor : Int)
  /-- A call of a cairo function. -/
  | cairo (call : String)
  /-- The statement `printf (format, ...)` with its `int` arguments (the two lines
  that print times have `double` arguments, which are not kept). -/
  | printf (format : String) (args : List Int)
deriving DecidableEq, Repr

/-- How the process ends. -/
inductive Outcome where
  /-- The function `main` returned `status`. -/
  | exit (status : Nat)
  /-- An integer remainder was taken with divisor 0: undefined in C, the signal
  `SIGFPE` on x86-64. -/
  | divisionByZero
deriving DecidableEq, Repr

/-- What a part of the program did, and the number of calls of `rand ()` made when it
is left; `none` when it stopped at a remainder with divisor 0. -/
abbrev Part := List Event × Option Nat

/-- One pass of the loop of lines 26-34 (a rectangle), `k` calls of `rand ()`
having been made. -/
def rectangle (w : World) (width height : Int) (k : Nat) : Part :=
  if width = 0 then ([.rem (w.rand k) width], none)
  else if height = 0 then ([.rem (w.rand k) width, .rem (w.rand (k + 1)) height], none)
  else
    ([ .rem (w.rand k) width, .rem (w.rand (k + 1)) height,
       .rem (w.rand (k + 2)) 100, .rem (w.rand (k + 3)) 100,
       .cairo "cairo_set_source_rgb", .cairo "cairo_rectangle", .cairo "cairo_fill" ],
      some (k + 7))

/-- One pass of the loop of lines 37-44 (a circle). -/
def circle (w : World) (width height : Int) (k : Nat) : Part :=
  if width = 0 then ([.rem (w.rand k) width], none)
  else if height = 0 then ([.rem (w.rand k) width, .rem (w.rand (k + 1)) height], none)
  else
    ([ .rem (w.rand k) width, .rem (w.rand (k + 1)) height, .rem (w.rand (k + 2)) 50,
       .cairo "cairo_set_source_rgb", .cairo "cairo_arc", .cairo "cairo_fill" ],
      some (k + 6))

/-- Sequencing: the second part runs only if the first was left normally. -/
def Part.andThen (p : Part) (next : Nat → Part) : Part :=
  match p.2 with
  | none => (p.1, none)
  | some k => (p.1 ++ (next k).1, (next k).2)

/-- A counted loop: `passes` passes of `body`. -/
def loop (body : Nat → Part) : Nat → Nat → Part
  | 0, k => ([], some k)
  | passes + 1, k => Part.andThen (body k) (loop body passes)

/-- One pass of the loop of lines 20-48. -/
def iteration (w : World) (width height : Int) (k : Nat) : Part :=
  Part.andThen ([.cairo "cairo_set_source_rgb", .cairo "cairo_paint"], some k) fun k0 =>
    Part.andThen (loop (rectangle w width height) 100 k0) fun k1 =>
      Part.andThen (loop (circle w width height) 100 k1) fun k2 =>
        ([.cairo "cairo_surface_flush"], some k2)

/-- The function `benchmark_pixman_drawing`; the loop over `i` makes `iterations`
passes, none when `iterations` is not positive. -/
def benchmark_pixman_drawing (w : World) (width height iterations : Int) : Part :=
  Part.andThen ([.cairo "cairo_image_surface_create", .cairo "cairo_create"], some 0) fun k0 =>
    Part.andThen (loop (iteration w width height) iterations.toNat k0) fun k1 =>
      ([ .printf "Cairo Benchmark - Width: %d, Height: %d, Iterations: %d\n"
           [width, height, iterations],
         .printf "Total Time: %.4f seconds\n" [],
         .printf "Average Time per Iteration: %.4f seconds\n" [],
         .cairo "cairo_destroy", .cairo "cairo_surface_destroy" ], some k1)

/-- The values of `width`, `height` and `iterations` after lines 62-70. -/
def parameters (argv : List String) : Int × Int × Int :=
  if argv.length = 4 then
    (atoi (argv.getD 1 ""), atoi (argv.getD 2 ""), atoi (argv.getD 3 ""))
  else (800, 600, 1000)

/-- The function `main`: the events of the run and how it ends. -/
def main (w : World) : List Event × Outcome :=
  let p := parameters w.argv
  let run := benchmark_pixman_drawing w p.1 p.2.1 p.2.2
  match run.2 with
  | none => (run.1, .divisionByZero)
  | some _ => (run.1, .exit 0)

/-- An event is a remainder whose divisor is zero. -/
def Event.zeroDivisor : Event → Bool
  | .rem _ divisor => decide (divisor = 0)
  | _ => false

/-- A run whose first argument is not a number. -/
def worldTextWidth : World where
  argv := ["pixman-cairo", "abc", "600", "1000"]
  rand := fun k => 7 * k + 3

/-- A run with width 0 and height 0. -/
def worldZeroSize : World where
  argv := ["pixman-cairo", "0", "0", "1"]
  rand := fun k => 7 * k + 3

/-- A run with two arguments only. -/
def worldTwoArguments : World where
  argv := ["pixman-cairo", "320", "200"]
  rand := fun k => 7 * k + 3

/-- A run of one iteration on a surface of 320 by 200. -/
def worldSmall : World where
  argv := ["pixman-cairo", "320", "200", "1"]
  rand := fun k => 7 * k + 3

end PixmanCairo

namespace Pango

/-! ## What `string_set_read` and `measure_strings` are compared with -/

/-- The state in which the loop of `string_set_read` is left for the content `raw`. -/
def readAll (env : Env) (raw : List Nat) : ReadState :=
  (List.range raw.length).foldl (readStep env raw)
    { string_start := 0, max_strings := 1024, strings := [] }

/-- The offsets of the NUL bytes of a content, in ascending order. -/
def nulOffsets (raw : List Nat) : List Nat :=
  (List.range raw.length).filter (fun p => decide (raw.getD p 0 = 0))

/-- The runs of bytes that the given offsets cut out of a content: the bytes from
`start` up to the first offset, then the bytes strictly between each offset and
the next.  What follows the last offset belongs to no run. -/
def runsBetween (raw : List Nat) : Nat → List Nat → List (List Nat)
  | _, [] => []
  | start, p :: rest => (raw.drop start).take (p - start) :: runsBetween raw (p + 1) rest

/-- The offset at which the run after the given offsets starts. -/
def startAfter : Nat → List Nat → Nat
  | start, [] => start
  | _, p :: rest => startAfter (p + 1) rest

/-- The number of strings flagged valid. -/
def validCount (strings : List Str) : Nat :=
  (strings.filter (fun s => s.valid)).length

/-- The sum of `num_chars` over the strings flagged valid. -/
def validChars (strings : List Str) : Int :=
  ((strings.filter (fun s => s.valid)).map (fun s => s.num_chars)).sum

/-- The function `measure_strings` as it acts on the record `results` points to:
lines 167-169 assign the three fields before the loops read them. -/
def measureInto (results : LanguageResults) (set : StringSet) (num_iters : Int) (ticks : Int) :
    LanguageResults :=
  let start : LanguageResults :=
    { results with elapsed := 0, total_strings := 0, total_chars := 0 }
  let done := Nat.iterate (fun r => set.strings.foldl measureOne r) num_iters.toNat start
  { done with elapsed := ticks }

/-- An environment whose file `many.dat` holds 1025 NUL bytes, hence 1025 empty
strings, one more than the first capacity of the array. -/
def envMany : Env :=
  { envUnreadable with
    contents := fun path => if path = "many.dat" then some (List.replicate 1025 0)
      else Option.none }

/-- A record left over from an earlier measurement. -/
def staleResults : LanguageResults where
  elapsed := 9
  total_strings := -5
  total_chars := -7

/-- A set of one valid string whose `num_chars` is negative: the value an `int`
takes when `g_utf8_strlen` returns `2^31`. -/
def setNegativeChars : StringSet where
  num_strings := 1
  strings_raw := [65, 0]
  strings := [{ str := [65], num_chars := -2147483648, num_bytes := 1, valid := true }]

/-- A valid string of `2^31 - 1` characters (its bytes are left out). -/
def longString : Str where
  str := []
  num_chars := 2147483647
  num_bytes := 2147483647
  valid := true

/-- A set of three valid strings of `2^31 - 1` characters each. -/
def setLongStrings : StringSet where
  num_strings := 3
  strings_raw := []
  strings := [longString, longString, longString]

/-- A set of a string of two characters, an invalid string and a string of three
characters. -/
def setSample : StringSet where
  num_strings := 3
  strings_raw := [72, 105, 0, 255, 0, 79, 117, 105, 0]
  strings :=
    [ { str := [72, 105], num_chars := 2, num_bytes := 2, valid := true },
      { str := [255], num_chars := 0, num_bytes := 1, valid := false },
      { str := [79, 117, 105], num_chars := 3, num_bytes := 3, valid := true } ]

end Pango

namespace Pngbench

/-- The number of bits by which `n` is longer than 53 bits, found by halving at
most `fuel` times (`n` itself is fuel enough). -/
def excessBits : Nat → Nat → Nat
  | 0, _ => 0
  | fuel + 1, n => if n < 2 ^ 53 then 0 else excessBits fuel (n / 2) + 1

/-- Rounding of a natural number to 53 significant bits, ties to even: what a
`double` keeps of it. -/
def roundNat (n : Nat) : Nat :=
  let e := excessBits n n
  if e = 0 then n
  else
    let q := n / 2 ^ e
    let r := n % 2 ^ e
    let half := 2 ^ (e - 1)
    if r < half then q * 2 ^ e
    else if half < r then (q + 1) * 2 ^ e
    else if q % 2 = 0 then q * 2 ^ e
    else (q + 1) * 2 ^ e

/-- The `double` nearest to a number given in units of `2^-72` (ties to even), in
the same units.  The numbers of lines 247-248 are whole multiples of `2^-72` of
magnitude below `2^42`, so neither overflow nor subnormal numbers occur. -/
def roundDouble (n : Int) : Int :=
  if 0 ≤ n then (roundNat n.toNat : Int) else -(roundNat (-n).toNat : Int)

/-- The constant `0.000001` as a `double`, in units of `2^-72`: the double nearest
to `10^-6` is `4722366482869645 * 2^-72`. -/
def microDouble : Int := 4722366482869645

/-- The variable `ms` after `double ms = 1000.0*secs; ms += nsecs * 0.000001;`
(lines 247-248), in units of `2^-72` milliseconds.  The conversions of `secs` and
`nsecs` to `double` are exact; the product `1000.0*secs`, the product
`nsecs * 0.000001` and the sum are each rounded to a `double`.  With `fused` the
last product and the sum are one fused multiply-add with a single rounding, as
compilers contract them where the target has the instruction. -/
def msDouble (fused : Bool) (secs nsecs : Int) : Int :=
  let ms := roundDouble (1000 * secs * 2 ^ 72)
  if fused then roundDouble (ms + nsecs * microDouble)
  else roundDouble (ms + roundDouble (nsecs * microDouble))

/-- The reading 0 s. -/
def readingStart : Int × Int := (0, 0)

/-- The reading 2147483647 s and 1 ns. -/
def readingLate : Int × Int := (2147483647, 1)

/-- The reading 5.9 s. -/
def readingBefore : Int × Int := (5, 900000000)

/-- The reading 7.1 s. -/
def readingAfter : Int × Int := (7, 100000000)

end Pngbench

namespace Memtest

theorem u64ToDouble_small (n : Nat) (h : n < 2 ^ 53) : u64ToDouble n = n := by
  unfold u64ToDouble
  rw [if_pos h]

theorem loopCond_small (T : Target) (s : LoopState) (h : s.bytes < 2 ^ 41) :
    loopCond T s = true ↔ 1024 ≤ s.bytes ∧ s.i < 5 := by
  have h53 : s.bytes < 2 ^ 53 := by omega
  have hle : s.bytes / 1024 ≤ 2147483647 := by omega
  simp only [loopCond, toInt, divBy1024, Dbl.trunc, u64ToDouble_small _ h53, hle, if_true,
    num_suffix, Bool.and_eq_true, decide_eq_true_eq]
  constructor
  · rintro ⟨h1, h2⟩
    refine ⟨?_, h2⟩
    have : 0 < s.bytes / 1024 := by exact_mod_cast h1
    omega
  · rintro ⟨h1, h2⟩
    refine ⟨?_, h2⟩
    have : 0 < s.bytes / 1024 := by omega
    exact_mod_cast this

theorem loopStep_small (s : LoopState) (h : s.bytes < 2 ^ 53) :
    loopStep s = { bytes := s.bytes / 1024, i := s.i + 1, dbl_s_byte := ⟨s.bytes⟩ } := by
  simp [loopStep, divBy1024, Dbl.trunc, u64ToDouble_small _ h]

theorem formatLoop_small (T : Target) (fuel : Nat) (s : LoopState) (h : s.bytes < 2 ^ 41) :
    formatLoop T (fuel + 1) s =
      if 1024 ≤ s.bytes ∧ s.i < 5 then
        formatLoop T fuel { bytes := s.bytes / 1024, i := s.i + 1, dbl_s_byte := ⟨s.bytes⟩ }
      else s := by
  have h53 : s.bytes < 2 ^ 53 := by omega
  by_cases hc : 1024 ≤ s.bytes ∧ s.i < 5
  · rw [if_pos hc, formatLoop, if_pos ((loopCond_small T s h).2 hc), loopStep_small s h53]
  · rw [if_neg hc, formatLoop, if_neg (fun hx => hc ((loopCond_small T s h).1 hx))]

theorem formatLoop_exits_aux (T : Target) :
    ∀ (fuel : Nat) (s : LoopState), num_suffix ≤ s.i + fuel →
      loopCond T (formatLoop T fuel s) = false := by
  intro fuel
  induction fuel with
  | zero =>
    intro s h
    simp only [formatLoop, loopCond, Bool.and_eq_false_iff, decide_eq_false_iff_not]
    right
    omega
  | succ n ih =>
    intro s h
    rw [formatLoop]
    by_cases hc : loopCond T s = true
    · rw [if_pos hc]
      apply ih
      simp only [loopStep]
      omega
    · rw [if_neg hc]
      simpa using hc

/-- The loop of `formatBytes` is left because its condition fails, on every
target and for every argument: the bound of `num_suffix + 1` passes is never
what ends it. -/
theorem formatLoop_exits (T : Target) (bytes : Nat) :
    loopCond T (formatBytesState T bytes) = false :=
  formatLoop_exits_aux T _ _ (by simp [num_suffix])

theorem formatLoop_small_mk (T : Target) (fuel b i : Nat) (d : Dbl) (h : b < 2 ^ 41) :
    formatLoop T (fuel + 1) { bytes := b, i := i, dbl_s_byte := d } =
      if 1024 ≤ b ∧ i < 5 then
        formatLoop T fuel { bytes := b / 1024, i := i + 1, dbl_s_byte := ⟨b⟩ }
      else { bytes := b, i := i, dbl_s_byte := d } :=
  formatLoop_small T fuel _ h

theorem formatBytesState_small (T : Target) (b : Nat) (hb : b < 2 ^ 41) :
    formatBytesState T b =
      if b < 1024 then { bytes := b, i := 0, dbl_s_byte := ⟨1024 * b⟩ }
      else if b < 1024 ^ 2 then { bytes := b / 1024, i := 1, dbl_s_byte := ⟨b⟩ }
      else if b < 1024 ^ 3 then { bytes := b / 1024 ^ 2, i := 2, dbl_s_byte := ⟨b / 1024⟩ }
      else if b < 1024 ^ 4 then { bytes := b / 1024 ^ 3, i := 3, dbl_s_byte := ⟨b / 1024 ^ 2⟩ }
      else { bytes := b / 1024 ^ 4, i := 4, dbl_s_byte := ⟨b / 1024 ^ 3⟩ } := by
  have e : ofU64 b = ⟨1024 * b⟩ := by simp [ofU64, u64ToDouble_small b (by omega)]
  have h1 : b / 1024 < 2 ^ 41 := by omega
  have h2 : b / 1024 / 1024 < 2 ^ 41 := by omega
  have h3 : b / 1024 / 1024 / 1024 < 2 ^ 41 := by omega
  have h4 : b / 1024 / 1024 / 1024 / 1024 < 2 ^ 41 := by omega
  have h5 : b / 1024 / 1024 / 1024 / 1024 / 1024 < 2 ^ 41 := by omega
  have d2 : b / 1024 ^ 2 = b / 1024 / 1024 := by omega
  have d3 : b / 1024 ^ 3 = b / 1024 / 1024 / 1024 := by omega
  have d4 : b / 1024 ^ 4 = b / 1024 / 1024 / 1024 / 1024 := by omega
  simp only [formatBytesState, num_suffix, e]
  rw [formatLoop_small_mk T _ _ _ _ hb, formatLoop_small_mk T _ _ _ _ h1,
    formatLoop_small_mk T _ _ _ _ h2, formatLoop_small_mk T _ _ _ _ h3,
    formatLoop_small_mk T _ _ _ _ h4, formatLoop_small_mk T _ _ _ _ h5, d2, d3, d4]
  split_ifs <;> first | rfl | omega

theorem formatLoop_indep (T U : Target) :
    ∀ (fuel : Nat) (s : LoopState), s.bytes < 2 ^ 41 → formatLoop T fuel s = formatLoop U fuel s := by
  intro fuel
  induction fuel with
  | zero => intro s _; rfl
  | succ n ih =>
    intro s h
    rw [formatLoop_small T n s h, formatLoop_small U n s h]
    split_ifs with hc
    · exact ih _ (by show s.bytes / 1024 < 2 ^ 41; omega)
    · rfl

theorem formatBytes_small (T U : Target) (b : Nat) (hb : b < 2 ^ 41) :
    formatBytes T b = formatBytes U b := by
  have hs : formatBytesState T b = formatBytesState U b := formatLoop_indep T U _ _ hb
  have hi : (formatBytesState U b).i ≤ 4 := by
    rw [formatBytesState_small U b hb]
    split_ifs <;> simp
  unfold formatBytes
  simp only [hs]
  have : suffixAt T (formatBytesState U b).i = suffixAt U (formatBytesState U b).i := by
    generalize (formatBytesState U b).i = k at hi
    interval_cases k <;> rfl
  rw [this]

/-- Below 2 TiB the unit is the one the scaling policy names, on every target:
`B` under 1024, `KB` under 1024^2, `MB` under 1024^3, `GB` under 1024^4, `TB` from
there on. -/
theorem formatBytes_unit_below_2TiB (T : Target) (b : Nat) (hb : b < 2 ^ 41) :
    suffixAt T (formatBytesState T b).i =
      if b < 1024 then "B" else if b < 1024 ^ 2 then "KB" else if b < 1024 ^ 3 then "MB"
      else if b < 1024 ^ 4 then "GB" else "TB" := by
  rw [formatBytesState_small T b hb]
  split_ifs <;> rfl

theorem le_u64ToDouble (n : Nat) (h : 2 ^ 41 ≤ n) : 2 ^ 41 ≤ u64ToDouble n := by
  by_cases hs : n < 2 ^ 53
  · rw [u64ToDouble_small n hs]
    exact h
  · have hn : n ≠ 0 := by omega
    have hlog : 53 ≤ n.log2 := (Nat.le_log2 hn).2 (by omega)
    have hpow : 2 ^ 52 * 2 ^ (n.log2 - 52) ≤ n := by
      rw [← pow_add, show 52 + (n.log2 - 52) = n.log2 by omega]
      exact Nat.log2_self_le hn
    have hq : 2 ^ 52 ≤ n / 2 ^ (n.log2 - 52) :=
      (Nat.le_div_iff_mul_le (by positivity)).2 hpow
    have he : 2 ≤ 2 ^ (n.log2 - 52) := by
      calc 2 = 2 ^ 1 := by norm_num
        _ ≤ 2 ^ (n.log2 - 52) := Nat.pow_le_pow_right (by norm_num) (by omega)
    have hlow : 2 ^ 41 ≤ n / 2 ^ (n.log2 - 52) * 2 ^ (n.log2 - 52) := by
      calc 2 ^ 41 ≤ 2 ^ 52 * 2 := by norm_num
        _ ≤ n / 2 ^ (n.log2 - 52) * 2 ^ (n.log2 - 52) := Nat.mul_le_mul hq he
    have hup : n / 2 ^ (n.log2 - 52) * 2 ^ (n.log2 - 52) ≤
        (n / 2 ^ (n.log2 - 52) + 1) * 2 ^ (n.log2 - 52) :=
      Nat.mul_le_mul_right _ (Nat.le_succ _)
    unfold u64ToDouble
    rw [if_neg hs]
    simp only []
    split_ifs <;> omega

/-- On x86-64 every byte count from 2 TiB on leaves the loop at once, with unit
index 0 (`B`). -/
theorem formatBytes_x86_64_large (b : Nat) (h : 2 ^ 41 ≤ b) :
    (formatBytesState x86_64 b).i = 0 := by
  have hd := le_u64ToDouble b h
  have hc : loopCond x86_64 { bytes := b, i := 0, dbl_s_byte := ofU64 b } = false := by
    have hbig : ¬ u64ToDouble b / 1024 ≤ 2147483647 := by omega
    simp [loopCond, toInt, divBy1024, Dbl.trunc, hbig, x86_64]
  simp [formatBytesState, formatLoop, hc]

/-- On x86-64 the unit index is at most 4 for every byte count: from 2 TiB on the
out-of-range conversion ends the loop at once. -/
theorem formatBytes_x86_64_index_le (b : Nat) : (formatBytesState x86_64 b).i ≤ 4 := by
  by_cases h : b < 2 ^ 41
  · rw [formatBytesState_small x86_64 b h]
    split_ifs <;> simp
  · rw [formatBytes_x86_64_large b (by omega)]
    omega

/-- C1, at the failing inputs: for the byte count `2^50` the unit index chosen by
`formatBytes` is not 4 (`TB`), whatever the target yields for the out-of-range
conversion `(int)(bytes / 1024.)`; on x86-64 the byte count `2^41` (2 TiB) is
printed with the unit `B`. -/
theorem formatBytes_large_not_TB :
    (∀ T : Target, (formatBytesState T (2 ^ 50)).i ≠ 4) ∧
      formatBytes x86_64 (2 ^ 41) = "2199023255552.00B" := by
  refine ⟨?_, by decide⟩
  intro T
  by_cases h : 0 < T.intOfLarge
  · have : (formatBytesState T (2 ^ 50)).i = 5 := by
      simp [formatBytesState, formatLoop, loopCond, toInt, divBy1024, u64ToDouble, Dbl.trunc,
        loopStep, num_suffix, h]
    omega
  · have : (formatBytesState T (2 ^ 50)).i = 0 := by
      simp [formatBytesState, formatLoop, loopCond, toInt, divBy1024, u64ToDouble, Dbl.trunc,
        loopStep, num_suffix, h]
    omega

/-- C2, at the failing input: where the conversion to `int` saturates, the byte
count `2^50` leaves the loop with `i = 5`, and the table `suffix` has the five
entries 0 to 4. -/
theorem formatBytes_index_past_table :
    (formatBytesState saturating (2 ^ 50)).i = 5 ∧ suffix.length = 5 ∧
      suffix.get? (formatBytesState saturating (2 ^ 50)).i = none := by
  decide

/-- Whenever the target yields a positive `int` for the out-of-range conversion,
the byte count `2^50` leaves the loop with `i = num_suffix`. -/
theorem formatBytes_index_past_table_of_pos (T : Target) (h : 0 < T.intOfLarge) :
    (formatBytesState T (2 ^ 50)).i = num_suffix := by
  simp [formatBytesState, formatLoop, loopCond, toInt, divBy1024, u64ToDouble, Dbl.trunc,
    loopStep, num_suffix, h]

/-- C3: `formatBytes (0)` is `"0.00B"`, `formatBytes (1024)` is `"1.00KB"` and
`formatBytes (1073741824)` is `"1.00GB"`, on every target. -/
theorem formatBytes_examples :
    ∀ T : Target, formatBytes T 0 = "0.00B" ∧ formatBytes T 1024 = "1.00KB" ∧
      formatBytes T 1073741824 = "1.00GB" := by
  intro T
  rw [formatBytes_small T x86_64 0 (by norm_num), formatBytes_small T x86_64 1024 (by norm_num),
    formatBytes_small T x86_64 1073741824 (by norm_num)]
  decide

/-- C4, at the failing input: for 1054000 bytes the unit index is 2 (`MB`) and the
number handed to `%0.2f` is `1029 / 1024`, not `1054000 / 1024^2`: the remainder
of the first division by 1024 is gone.  The text is `"1.00MB"`, while
`1054000 / 1024^2` lies above `1.005` and rounds to `1.01`. -/
theorem formatBytes_drops_fraction :
    ∀ T : Target, (formatBytesState T 1054000).i = 2 ∧
      (formatBytesState T 1054000).dbl_s_byte.toRat = 1029 / 1024 ∧
      (formatBytesState T 1054000).dbl_s_byte.toRat ≠ 1054000 / 1024 ^ 2 ∧
      (1005 : ℚ) / 1000 < 1054000 / 1024 ^ 2 ∧
      formatBytes T 1054000 = "1.00MB" := by
  intro T
  have hs : formatBytesState T 1054000 = { bytes := 1, i := 2, dbl_s_byte := ⟨1029⟩ } := by
    rw [formatBytesState_small T 1054000 (by norm_num)]
    norm_num
  refine ⟨by rw [hs], by rw [hs]; norm_num [Dbl.toRat], by rw [hs]; norm_num [Dbl.toRat],
    by norm_num, ?_⟩
  rw [formatBytes_small T x86_64 1054000 (by norm_num)]
  decide

theorem divisor_eq_zero (elapsed_ms : Int) : divisor elapsed_ms = 0 ↔ elapsed_ms = 0 := by
  simp [divisor]

theorem dividesByZero_iff (e : Event) :
    e.DividesByZero ↔ ∃ size, e = .fdiv size 0 := by
  cases e <;> simp [Event.DividesByZero, divisor_eq_zero]

/-- Every division of a run is the one of the memset, memcpy or memmove phase and
has that phase's reading in its divisor. -/
theorem fdiv_mem_main (T : Target) (w : World) (size : Nat) (ms : Int)
    (h : Event.fdiv size ms ∈ (main T w).1) :
    ms = w.elapsed 1 ∨ ms = w.elapsed 2 ∨ ms = w.elapsed 3 := by
  unfold main at h
  split at h
  · simp at h
  · simp only [mallocPhase, memsetPhase, memcpyPhase, memmovePhase] at h
    split_ifs at h <;> simp at h <;> tauto

/-- C5, counterexample: in a run of size 1048576 whose phases take less than a
millisecond the memset phase performs the division `SIZE_BYTES / (elapsed_ms / 1.0e3)`
with `elapsed_ms = 0`, a division by zero. -/
theorem main_divides_by_zero :
    Event.fdiv 1048576 0 ∈ (main x86_64 worldInstant).1 ∧
      (Event.fdiv 1048576 0).DividesByZero := by
  refine ⟨by decide, ?_⟩
  simp [Event.DividesByZero, divisor]

/-- C5, amended: the throughput is computed without any test of the elapsed time;
for every target, command line and allocator, when the readings of the memset,
memcpy and memmove phases are greater than zero, no division of the run has a
zero divisor. -/
theorem main_no_division_by_zero (T : Target) (w : World)
    (h1 : 0 < w.elapsed 1) (h2 : 0 < w.elapsed 2) (h3 : 0 < w.elapsed 3) :
    ∀ e ∈ (main T w).1, ¬ e.DividesByZero := by
  intro e he hz
  obtain ⟨size, rfl⟩ := (dividesByZero_iff e).1 hz
  rcases fdiv_mem_main T w size 0 he with h | h | h <;> omega

/-- C5, amended, at the run `worldMiB` (every phase takes 5 ms): no division of the
run has a zero divisor. -/
theorem main_no_division_by_zero_witness :
    (0 < worldMiB.elapsed 1 ∧ 0 < worldMiB.elapsed 2 ∧ 0 < worldMiB.elapsed 3) ∧
      ∀ e ∈ (main x86_64 worldMiB).1, ¬ e.DividesByZero :=
  ⟨by decide, main_no_division_by_zero x86_64 worldMiB (by decide) (by decide) (by decide)⟩

/-- C6, counterexample: with the command line `memtest abc` the run ends by the
exception of `std::stoull`, before any allocation: the status is neither 1 nor 0
although no allocation returned null. -/
theorem main_aborts_on_bad_argument :
    main x86_64 worldNotANumber = ([], Outcome.abort) := by
  decide

/-- C6, amended: for every command line whose argument, when there is one,
`std::stoull` converts, the buffer size is 1073741824 without argument and the
converted value otherwise, every allocation asks for that size, and the run
ends with status 1 when one of its allocations returned null and with status 0
when none did. -/
theorem main_exit_status (T : Target) (w : World) (n : Nat) (hn : SIZE_BYTES w.argv = some n) :
    (w.argv.length ≤ 1 → n = 1073741824) ∧
      (1 < w.argv.length → stoull (w.argv.getD 1 "") = some n) ∧
      (∀ size ok, Event.malloc size ok ∈ (main T w).1 → size = n) ∧
      ((main T w).2 = Outcome.exit 1 ↔ Event.malloc n false ∈ (main T w).1) ∧
      ((main T w).2 = Outcome.exit 0 ↔ Event.malloc n false ∉ (main T w).1) := by
  refine ⟨?_, ?_, ?_, ?_, ?_⟩
  · intro h
    have : ¬ 1 < w.argv.length := by omega
    simp [SIZE_BYTES, this] at hn
    exact hn.symm
  · intro h
    simpa [SIZE_BYTES, h] using hn
  all_goals
    unfold main
    rw [hn]
    simp only [mallocPhase, memsetPhase, memcpyPhase, memmovePhase]
    split_ifs <;> simp

/-- C6, amended, at the run `worldSecondAllocFails`: the size is the built-in
1073741824, the second allocation returns null and the status is 1. -/
theorem main_exit_status_witness :
    SIZE_BYTES worldSecondAllocFails.argv = some 1073741824 ∧
      (main x86_64 worldSecondAllocFails).2 = Outcome.exit 1 ∧
      Event.malloc 1073741824 false ∈ (main x86_64 worldSecondAllocFails).1 := by
  have h := main_exit_status x86_64 worldSecondAllocFails 1073741824 (by decide)
  exact ⟨by decide, by decide, h.2.2.2.1.1 (by decide)⟩

end Memtest

namespace MallocGlib

/-- C9, counterexample: the run has seven timed phases and seven timing lines,
and the deletion from the hash table is not among the timed phases. -/
theorem main_times_no_hash_table_deletion :
    (phases (main ticking).1).length = 7 ∧
      (Container.hashTable, Operation.deletion) ∉ phases (main ticking).1 ∧
      (timingLines (main ticking).1).length = 7 := by
  decide

/-- C9, amended: for every clock, the run times, in this order, insertion and
deletion for the array, insertion, lookup and deletion for the list, and insertion
and lookup for the hash table; it prints one timing line for each of these seven
phases, with the ticks between the two clock readings around the phase, and
returns 0. -/
theorem main_phases :
    ∀ clk : Nat → Int,
      phases (main clk).1 =
        [(Container.array, Operation.insertion), (Container.array, Operation.deletion),
          (Container.list, Operation.insertion), (Container.list, Operation.lookup),
          (Container.list, Operation.deletion), (Container.hashTable, Operation.insertion),
          (Container.hashTable, Operation.lookup)] ∧
      timingLines (main clk).1 =
        [("GArray: Insertion (append) time: %f seconds\n", clk 1 - clk 0),
          ("GArray: Deletion time: %f seconds\n", clk 3 - clk 2),
          ("GList: Insertion (prepend) time: %f seconds\n", clk 5 - clk 4),
          ("GList: Lookup (traverse) time: %f seconds\n", clk 7 - clk 6),
          ("GList: Deletion time: %f seconds\n", clk 9 - clk 8),
          ("GHashTable: Insertion time: %f seconds\n", clk 11 - clk 10),
          ("GHashTable: Lookup time: %f seconds\n", clk 13 - clk 12)] ∧
      (main clk).2 = 0 := by
  intro clk
  refine ⟨rfl, rfl, rfl⟩

end MallocGlib

namespace Pngbench

theorem toInt32_of_range (n : Int) (h1 : -2 ^ 31 ≤ n) (h2 : n < 2 ^ 31) : toInt32 n = n := by
  unfold toInt32
  omega

theorem readLoop_stuck (reads : Nat → Nat) (h0 : ∀ k, reads k = 0) (remaining : Int)
    (hr : remaining ≠ 0) (h1 : -2 ^ 31 ≤ remaining) (h2 : remaining < 2 ^ 31) :
    ∀ fuel k, readLoop reads fuel k remaining = none := by
  intro fuel
  induction fuel with
  | zero => intro k; rfl
  | succ n ih =>
    intro k
    have hmin : min ((0 : Nat) : Int) (((remaining % 2 ^ 64).toNat : Nat) : Int) = 0 :=
      min_eq_left (by positivity)
    have hz : toInt32 0 = 0 := by decide
    rw [readLoop, if_neg hr]
    simp only [h0 k, hmin, hz, sub_zero, lt_irrefl, if_false, toInt32_of_range remaining h1 h2]
    exact ih (k + 1)

theorem fread_result (reads : Nat → Nat) (k : Nat) (remaining : Int)
    (h0 : 0 < remaining) (h2 : remaining < 2 ^ 31) :
    toInt32 (min ((reads k : Nat) : Int) (((remaining % 2 ^ 64).toNat : Nat) : Int)) =
      min ((reads k : Nat) : Int) remaining := by
  have hmod : remaining % 2 ^ 64 = remaining := Int.emod_eq_of_lt (by omega) (by omega)
  have hcast : (((remaining % 2 ^ 64).toNat : Nat) : Int) = remaining := by
    rw [hmod]
    exact Int.toNat_of_nonneg (by omega)
  rw [hcast]
  have hr : (0 : Int) ≤ (reads k : Nat) := Int.natCast_nonneg _
  apply toInt32_of_range
  · have : (0 : Int) ≤ min ((reads k : Nat) : Int) remaining := le_min hr (by omega)
    omega
  · have : min ((reads k : Nat) : Int) remaining ≤ remaining := min_le_right _ _
    omega

/-- For a length between 0 and `INT_MAX` the branch `read < 0` is never taken,
whatever the reads return. -/
theorem readLoop_never_exit1 (reads : Nat → Nat) :
    ∀ (fuel k : Nat) (remaining : Int), 0 ≤ remaining → remaining < 2 ^ 31 →
      readLoop reads fuel k remaining ≠ some LoopEnd.exit1 := by
  intro fuel
  induction fuel with
  | zero => intro k remaining _ _; simp [readLoop]
  | succ n ih =>
    intro k remaining h0 h2
    by_cases hz : remaining = 0
    · simp [readLoop, hz]
    · have hpos : 0 < remaining := by omega
      have hread := fread_result reads k remaining hpos h2
      have hr : (0 : Int) ≤ (reads k : Nat) := Int.natCast_nonneg _
      have hlo : (0 : Int) ≤ min ((reads k : Nat) : Int) remaining := le_min hr h0
      have hhi : min ((reads k : Nat) : Int) remaining ≤ remaining := min_le_right _ _
      rw [readLoop, if_neg hz]
      simp only [hread]
      rw [if_neg (by omega), toInt32_of_range _ (by omega) (by omega)]
      exact ih (k + 1) _ (by omega) (by omega)

/-- When every read delivers at least one byte, the loop is left with
`remaining = 0` after at most `remaining + 1` evaluations of its condition. -/
theorem readLoop_complete (reads : Nat → Nat) (hreads : ∀ k, 1 ≤ reads k) :
    ∀ (n k : Nat) (remaining : Int), 0 ≤ remaining → remaining ≤ n → remaining < 2 ^ 31 →
      readLoop reads (n + 1) k remaining = some LoopEnd.complete := by
  intro n
  induction n with
  | zero =>
    intro k remaining h0 hn _
    have hz : remaining = 0 := by omega
    simp [readLoop, hz]
  | succ m ih =>
    intro k remaining h0 hn h2
    by_cases hz : remaining = 0
    · simp [readLoop, hz]
    · have hpos : 0 < remaining := by omega
      have hread := fread_result reads k remaining hpos h2
      have hr : (1 : Int) ≤ (reads k : Nat) := by exact_mod_cast hreads k
      have hlo : (1 : Int) ≤ min ((reads k : Nat) : Int) remaining := le_min hr (by omega)
      have hhi : min ((reads k : Nat) : Int) remaining ≤ remaining := min_le_right _ _
      rw [readLoop, if_neg hz]
      simp only [hread]
      rw [if_neg (by omega), toInt32_of_range _ (by omega) (by omega)]
      exact ih (k + 1) _ (by omega) (by omega) (by omega)

/-- Without a path argument the run ends with status 1. -/
theorem main_without_path (w : World) (fuel : Nat) (h : w.argv.length < 2) :
    main w fuel = some 1 := by
  simp [main, h]

/-- When the file cannot be opened the run ends with status 1. -/
theorem main_fopen_fails (w : World) (fuel : Nat) (h : 2 ≤ w.argv.length)
    (hf : w.fopenOk = false) : main w fuel = some 1 := by
  have : ¬ w.argv.length < 2 := by omega
  simp [main, this, hf]

/-- A file of 10 bytes delivered in reads of 6 and 4 bytes is read in full and the
run ends with status 0. -/
theorem main_two_reads : main worldTwoReads 3 = some 0 := by
  decide

/-- C10, at the failing input: for a file of 10 bytes whose reads return 0 the
run reaches no exit, however often the condition of the file-reading loop is
evaluated: `remaining` stays 10 and the test `read < 0` never holds. -/
theorem main_short_read_never_exits :
    ∀ fuel : Nat, main worldShortRead fuel = none := by
  intro fuel
  have h := readLoop_stuck worldShortRead.reads (fun _ => rfl) 10 (by decide) (by decide)
    (by decide) fuel 0
  have hlen : worldShortRead.len = 10 := rfl
  have hargv : ¬ worldShortRead.argv.length < 2 := by decide
  have hopen : ¬ worldShortRead.fopenOk = false := by decide
  simp only [main, if_neg hargv, if_neg hopen, hlen, h]

end Pngbench

namespace Pango

theorem run_one_language_unreadable (env : Env) (opts : Options) (k : Nat)
    (lang_name filename : String) (h : env.contents filename = Option.none) :
    (run_one_language env opts k lang_name filename).2 = some 1 ∧
      languageBlocks (run_one_language env opts k lang_name filename).1 = 0 := by
  simp [run_one_language, string_set_read, h, languageBlocks, Run.andThen, error_and_exit]

end Pango

namespace PixmanCairo

/-- A part that is left normally and takes no remainder with divisor 0. -/
theorem andThen_clean (p : Part) (next : Nat → Part)
    (hp : p.2.isSome = true ∧ ∀ e ∈ p.1, e.zeroDivisor = false)
    (hn : ∀ k, (next k).2.isSome = true ∧ ∀ e ∈ (next k).1, e.zeroDivisor = false) :
    (Part.andThen p next).2.isSome = true ∧
      ∀ e ∈ (Part.andThen p next).1, e.zeroDivisor = false := by
  obtain ⟨k, hk⟩ := Option.isSome_iff_exists.1 hp.1
  unfold Part.andThen
  rw [hk]
  refine ⟨(hn k).1, ?_⟩
  intro e he
  rcases List.mem_append.1 he with h | h
  · exact hp.2 e h
  · exact (hn k).2 e h

theorem loop_clean (body : Nat → Part)
    (hb : ∀ k, (body k).2.isSome = true ∧ ∀ e ∈ (body k).1, e.zeroDivisor = false) :
    ∀ passes k, (loop body passes k).2.isSome = true ∧
      ∀ e ∈ (loop body passes k).1, e.zeroDivisor = false := by
  intro passes
  induction passes with
  | zero => intro k; simp [loop]
  | succ n ih =>
    intro k
    rw [loop]
    exact andThen_clean _ _ (hb k) ih

theorem rectangle_clean (w : World) (width height : Int) (hw : width ≠ 0) (hh : height ≠ 0)
    (k : Nat) :
    (rectangle w width height k).2.isSome = true ∧
      ∀ e ∈ (rectangle w width height k).1, e.zeroDivisor = false := by
  simp [rectangle, hw, hh, Event.zeroDivisor]

theorem circle_clean (w : World) (width height : Int) (hw : width ≠ 0) (hh : height ≠ 0)
    (k : Nat) :
    (circle w width height k).2.isSome = true ∧
      ∀ e ∈ (circle w width height k).1, e.zeroDivisor = false := by
  simp [circle, hw, hh, Event.zeroDivisor]

theorem iteration_clean (w : World) (width height : Int) (hw : width ≠ 0) (hh : height ≠ 0)
    (k : Nat) :
    (iteration w width height k).2.isSome = true ∧
      ∀ e ∈ (iteration w width height k).1, e.zeroDivisor = false := by
  unfold iteration
  refine andThen_clean _ _ (by simp [Event.zeroDivisor]) fun k0 => ?_
  refine andThen_clean _ _ (loop_clean _ (rectangle_clean w width height hw hh) _ _) fun k1 => ?_
  refine andThen_clean _ _ (loop_clean _ (circle_clean w width height hw hh) _ _) fun k2 => ?_
  simp [Event.zeroDivisor]

theorem benchmark_clean (w : World) (width height iterations : Int)
    (h : iterations ≤ 0 ∨ (width ≠ 0 ∧ height ≠ 0)) :
    (benchmark_pixman_drawing w width height iterations).2.isSome = true ∧
      ∀ e ∈ (benchmark_pixman_drawing w width height iterations).1, e.zeroDivisor = false := by
  unfold benchmark_pixman_drawing
  refine andThen_clean _ _ (by simp [Event.zeroDivisor]) fun k0 => ?_
  refine andThen_clean _ _ ?_ fun k1 => by simp [Event.zeroDivisor]
  rcases h with h | ⟨hw, hh⟩
  · have : iterations.toNat = 0 := Int.toNat_eq_zero.2 h
    rw [this]
    simp [loop]
  · exact loop_clean _ (iteration_clean w width height hw hh) _ _

theorem benchmark_printf (w : World) (width height iterations : Int)
    (h : (benchmark_pixman_drawing w width height iterations).2.isSome = true) :
    Event.printf "Cairo Benchmark - Width: %d, Height: %d, Iterations: %d\n"
      [width, height, iterations] ∈ (benchmark_pixman_drawing w width height iterations).1 := by
  unfold benchmark_pixman_drawing at h ⊢
  cases hl : (loop (iteration w width height) iterations.toNat 0).2 with
  | none => simp [Part.andThen, hl] at h
  | some k1 => simp [Part.andThen, hl]

theorem andThen_snd_none (p : Part) (next : Nat → Part) (h : p.2 = none) :
    (Part.andThen p next).2 = none := by
  simp [Part.andThen, h]

/-- With a positive number of iterations and width 0 or height 0 the run stops at
a remainder with divisor 0. -/
theorem main_zero_divisor (w : World) (hi : 0 < (parameters w.argv).2.2)
    (hz : (parameters w.argv).1 = 0 ∨ (parameters w.argv).2.1 = 0) :
    (main w).2 = Outcome.divisionByZero := by
  obtain ⟨n, hn⟩ : ∃ n, (parameters w.argv).2.2.toNat = n + 1 :=
    ⟨(parameters w.argv).2.2.toNat - 1, by omega⟩
  have hrect : ∀ k, (rectangle w (parameters w.argv).1 (parameters w.argv).2.1 k).2 = none := by
    intro k
    rcases hz with h | h
    · simp [rectangle, h]
    · by_cases hw : (parameters w.argv).1 = 0 <;> simp [rectangle, h, hw]
  have hiter : ∀ k, (iteration w (parameters w.argv).1 (parameters w.argv).2.1 k).2 = none := by
    intro k
    simp [iteration, Part.andThen, loop, hrect]
  have hrun : (benchmark_pixman_drawing w (parameters w.argv).1 (parameters w.argv).2.1
      (parameters w.argv).2.2).2 = none := by
    simp [benchmark_pixman_drawing, Part.andThen, hn, loop, hiter]
  simp [main, hrun]

/-- C11, counterexample: for the command line `pixman-cairo abc 600 1000` the width
is `atoi ("abc") = 0`; the first `rand () % width` has divisor 0 and the run does
not end with exit code 0. -/
theorem main_text_width_divides_by_zero :
    parameters worldTextWidth.argv = (0, 600, 1000) ∧
      main worldTextWidth =
        ([Event.cairo "cairo_image_surface_create", Event.cairo "cairo_create",
          Event.cairo "cairo_set_source_rgb", Event.cairo "cairo_paint", Event.rem 3 0],
          Outcome.divisionByZero) := by
  decide

/-- C11, amended: the benchmark runs with width, height and iterations equal to
`atoi` of the three arguments when exactly three are given, and with 800, 600,
1000 for every other number of arguments.  Whenever width and height are both
non-zero, or iterations is not positive, no `rand () % width` or `rand () % height`
(nor any other remainder) has a zero divisor, the parameters are printed, and the
run ends with exit code 0. -/
theorem main_exit_zero (w : World)
    (h : (parameters w.argv).2.2 ≤ 0 ∨
      ((parameters w.argv).1 ≠ 0 ∧ (parameters w.argv).2.1 ≠ 0)) :
    (w.argv.length = 4 → parameters w.argv =
        (atoi (w.argv.getD 1 ""), atoi (w.argv.getD 2 ""), atoi (w.argv.getD 3 ""))) ∧
      (w.argv.length ≠ 4 → parameters w.argv = (800, 600, 1000)) ∧
      (main w).2 = Outcome.exit 0 ∧
      (∀ e ∈ (main w).1, e.zeroDivisor = false) ∧
      Event.printf "Cairo Benchmark - Width: %d, Height: %d, Iterations: %d\n"
        [(parameters w.argv).1, (parameters w.argv).2.1, (parameters w.argv).2.2] ∈ (main w).1 := by
  obtain ⟨hsome, hclean⟩ := benchmark_clean w (parameters w.argv).1 (parameters w.argv).2.1
    (parameters w.argv).2.2 h
  obtain ⟨k, hk⟩ := Option.isSome_iff_exists.1 hsome
  refine ⟨fun h4 => by simp [parameters, h4], fun h4 => by simp [parameters, h4], ?_, ?_, ?_⟩
  · simp [main, hk]
  · intro e he
    apply hclean e
    simpa [main, hk] using he
  · have hp := benchmark_printf w (parameters w.argv).1 (parameters w.argv).2.1
      (parameters w.argv).2.2 hsome
    simpa [main, hk] using hp

/-- C11, amended, at two runs: with the two arguments `320 200` the defaults 800,
600, 1000 are used, with the three arguments `320 200 1` their values; both runs
end with exit code 0 and take no remainder with divisor 0. -/
theorem main_exit_zero_witness :
    (parameters worldTwoArguments.argv = (800, 600, 1000) ∧
        (main worldTwoArguments).2 = Outcome.exit 0) ∧
      (parameters worldSmall.argv = (320, 200, 1) ∧ (main worldSmall).2 = Outcome.exit 0 ∧
        ∀ e ∈ (main worldSmall).1, e.zeroDivisor = false) :=
  ⟨⟨by decide, (main_exit_zero worldTwoArguments (by decide)).2.2.1⟩,
    ⟨by decide, (main_exit_zero worldSmall (by decide)).2.2.1,
      (main_exit_zero worldSmall (by decide)).2.2.2.1⟩⟩

end PixmanCairo

namespace Pango

theorem takeWhile_eq_take (l : List Nat) :
    ∀ m : Nat, (∀ i, i < m → l.getD i 0 ≠ 0) → l.getD m 0 = 0 →
      l.takeWhile (fun b => decide (b ≠ 0)) = l.take m := by
  induction l with
  | nil => intro m _ _; simp
  | cons a t ih =>
    intro m h1 h2
    cases m with
    | zero =>
      have : a = 0 := by simpa using h2
      simp [this]
    | succ m =>
      have ha : a ≠ 0 := by simpa using h1 0 (by omega)
      have := ih m (fun i hi => by simpa using h1 (i + 1) (by omega)) (by simpa using h2)
      have hd : decide (a ≠ 0) = true := by simpa using ha
      rw [List.takeWhile_cons, List.take_succ_cons, this]
      simp only [hd, if_true]

theorem getD_drop (raw : List Nat) (s i : Nat) : (raw.drop s).getD i 0 = raw.getD (s + i) 0 := by
  simp [List.getD_eq_getElem?_getD, List.getElem?_drop]

theorem cstr_eq_take (raw : List Nat) (start p : Nat) (hsp : start ≤ p)
    (h1 : ∀ i, start ≤ i → i < p → raw.getD i 0 ≠ 0) (h2 : raw.getD p 0 = 0) :
    cstr raw start = (raw.drop start).take (p - start) := by
  unfold cstr
  apply takeWhile_eq_take
  · intro i hi
    rw [getD_drop]
    exact h1 _ (by omega) (by omega)
  · rw [getD_drop, show start + (p - start) = p by omega]
    exact h2

theorem runsBetween_append (raw : List Nat) (p : Nat) :
    ∀ (offsets : List Nat) (start : Nat),
      runsBetween raw start (offsets ++ [p]) =
        runsBetween raw start offsets ++
          [(raw.drop (startAfter start offsets)).take (p - startAfter start offsets)] := by
  intro offsets
  induction offsets with
  | nil => intro start; simp [runsBetween, startAfter]
  | cons q rest ih =>
    intro start
    rw [List.cons_append]
    simp only [runsBetween, startAfter]
    rw [ih (q + 1)]
    rfl

theorem startAfter_append (p : Nat) :
    ∀ (offsets : List Nat) (start : Nat), startAfter start (offsets ++ [p]) = p + 1 := by
  intro offsets
  induction offsets with
  | nil => intro start; rfl
  | cons q rest ih => intro start; exact ih (q + 1)

/-- The state of the loop after the offsets below `n`. -/
theorem readAll_invariant (env : Env) (raw : List Nat) :
    ∀ n : Nat, n ≤ raw.length →
      let st := (List.range n).foldl (readStep env raw)
        { string_start := 0, max_strings := 1024, strings := [] }
      let offsets := (List.range n).filter (fun p => decide (raw.getD p 0 = 0))
      st.strings = (runsBetween raw 0 offsets).map (mkStr env) ∧
        st.string_start = startAfter 0 offsets ∧
        st.string_start ≤ n ∧
        (∀ i, st.string_start ≤ i → i < n → raw.getD i 0 ≠ 0) ∧
        st.strings.length ≤ st.max_strings ∧ 0 < st.max_strings := by
  intro n
  induction n with
  | zero => intro _; simp [runsBetween, startAfter]
  | succ n ih =>
    intro hn
    have ih2 := ih (by omega)
    simp only [List.range_succ, List.foldl_append, List.foldl_cons, List.foldl_nil,
      List.filter_append]
    generalize List.foldl (readStep env raw)
      { string_start := 0, max_strings := 1024, strings := [] } (List.range n) = st at ih2 ⊢
    generalize List.filter (fun p => decide (raw.getD p 0 = 0)) (List.range n) = offsets at ih2 ⊢
    obtain ⟨h1, h2, h3, h4, h5, h6⟩ := ih2
    by_cases hz : raw.getD n 0 = 0
    · have hf : List.filter (fun p => decide (raw.getD p 0 = 0)) [n] = [n] :=
        List.filter_cons_of_pos (by simpa using hz)
      rw [hf, runsBetween_append, startAfter_append]
      simp only [readStep, hz, if_true]
      refine ⟨?_, trivial, by omega, ?_, ?_, ?_⟩
      · rw [cstr_eq_take raw _ n h3 h4 hz, h1, h2]
        simp
      · intro i hi hi2; omega
      · simp only [List.length_append, List.length_singleton]
        split_ifs with hc <;> omega
      · split_ifs <;> omega
    · have hf : List.filter (fun p => decide (raw.getD p 0 = 0)) [n] = [] :=
        List.filter_cons_of_neg (by simpa using hz)
      rw [hf, List.append_nil]
      simp only [readStep, hz, if_false]
      refine ⟨h1, h2, by omega, ?_, h5, h6⟩
      intro i hi hi2
      by_cases hin : i = n
      · rw [hin]; exact hz
      · exact h4 i hi (by omega)

theorem count_eq_length_filter (raw : List Nat) :
    raw.count 0 = ((List.range raw.length).filter (fun p => decide (raw.getD p 0 = 0))).length := by
  induction raw using List.reverseRecOn with
  | nil => simp
  | append_singleton l a ih =>
    have hc : List.filter (fun p => decide ((l ++ [a]).getD p 0 = 0)) (List.range l.length) =
        List.filter (fun p => decide (l.getD p 0 = 0)) (List.range l.length) := by
      apply List.filter_congr
      intro x hx
      rw [List.getD_append _ _ _ _ (List.mem_range.1 hx)]
    have hlast : (l ++ [a]).getD l.length 0 = a := by
      simp [List.getD_eq_getElem?_getD]
    rw [List.count_append, List.length_append, List.length_singleton, List.range_succ,
      List.filter_append, List.length_append, hc, ← ih]
    by_cases ha : a = 0
    · have hf : List.filter (fun p => decide ((l ++ [a]).getD p 0 = 0)) [l.length] = [l.length] :=
        List.filter_cons_of_pos (by rw [hlast]; simpa using ha)
      rw [hf, ha]
      simp
    · have hf : List.filter (fun p => decide ((l ++ [a]).getD p 0 = 0)) [l.length] = [] :=
        List.filter_cons_of_neg (by rw [hlast]; simpa using ha)
      have hcount : List.count 0 [a] = 0 := by
        rw [List.count_eq_zero]
        simpa using fun h => ha h.symm
      rw [hf, hcount]
      simp

theorem runsBetween_length (raw : List Nat) :
    ∀ (offsets : List Nat) (start : Nat), (runsBetween raw start offsets).length = offsets.length := by
  intro offsets
  induction offsets with
  | nil => intro start; rfl
  | cons p rest ih => intro start; simp [runsBetween, ih]

theorem readAll_strings (env : Env) (raw : List Nat) :
    (readAll env raw).strings = (runsBetween raw 0 (nulOffsets raw)).map (mkStr env) ∧
      (readAll env raw).strings.length ≤ (readAll env raw).max_strings :=
  ⟨(readAll_invariant env raw raw.length (le_refl _)).1,
    (readAll_invariant env raw raw.length (le_refl _)).2.2.2.2.1⟩

/-- For the file `po-data/fr.dat` with the bytes of `Oui`, NUL, `Non`, NUL, `x`, the
strings read are `Oui` and `Non`; the byte after the last NUL is in no string. -/
theorem string_set_read_sample :
    (string_set_read envReadable "po-data/fr.dat").map (fun set => set.strings.map (fun s => s.str)) =
      some [[79, 117, 105], [78, 111, 110]] := by
  decide

/-- C12: for every content `raw` that `g_file_get_contents` delivers,
`string_set_read` returns as many strings as `raw` has NUL bytes; in file order,
the `k`-th string is the run of bytes strictly between the NUL before it (or the
start of the content) and the `k`-th NUL, and bytes after the last NUL are in no
string.  Each entry is the one lines 131-135 write for its run, and the number of
entries never exceeds the capacity of the array, which starts at 1024 and is
doubled when full. -/
theorem string_set_read_runs (env : Env) (filename : String) (raw : List Nat)
    (h : env.contents filename = some raw) :
    ∃ set, string_set_read env filename = some set ∧
      set.strings_raw = raw ∧
      set.num_strings = raw.count 0 ∧
      set.strings.length = raw.count 0 ∧
      set.strings.map (fun s => s.str) = runsBetween raw 0 (nulOffsets raw) ∧
      set.strings = (runsBetween raw 0 (nulOffsets raw)).map (mkStr env) ∧
      set.strings.length ≤ (readAll env raw).max_strings := by
  have hset : string_set_read env filename =
      some { num_strings := (readAll env raw).strings.length, strings_raw := raw,
             strings := (readAll env raw).strings } := by
    simp [string_set_read, h, readAll]
  obtain ⟨hstr, hcap⟩ := readAll_strings env raw
  have hlen : (readAll env raw).strings.length = raw.count 0 := by
    rw [hstr, List.length_map, runsBetween_length, count_eq_length_filter]
    rfl
  refine ⟨_, hset, rfl, hlen, hlen, ?_, hstr, hcap⟩
  show (readAll env raw).strings.map (fun s => s.str) = _
  rw [hstr, List.map_map]
  have : ((fun s : Str => s.str) ∘ mkStr env) = id := by
    funext x
    rfl
  rw [this, List.map_id]

/-- C12, at a file of 1025 NUL bytes: 1025 strings are returned, more than the first
capacity of 1024. -/
theorem string_set_read_runs_witness :
    envMany.contents "many.dat" = some (List.replicate 1025 0) ∧
      ∃ set, string_set_read envMany "many.dat" = some set ∧ set.num_strings = 1025 ∧
        set.strings.length = 1025 := by
  obtain ⟨set, h1, -, h3, h4, -⟩ :=
    string_set_read_runs envMany "many.dat" (List.replicate 1025 0) rfl
  have hc : List.count 0 (List.replicate 1025 0) = 1025 := List.count_replicate_self 0 1025
  exact ⟨rfl, set, h1, by rw [h3, hc], by rw [h4, hc]⟩

theorem wrapLong_add (a b : Int) : wrapLong (wrapLong a + b) = wrapLong (a + b) := by
  unfold wrapLong
  omega

theorem wrapLong_of_range (a : Int) (h1 : -2 ^ 63 ≤ a) (h2 : a < 2 ^ 63) : wrapLong a = a := by
  unfold wrapLong
  omega

theorem wrapLong_wrapLong (a : Int) : wrapLong (wrapLong a) = wrapLong a := by
  unfold wrapLong
  omega

theorem foldl_measureOne (strings : List Str) :
    ∀ (e a b : Int),
      strings.foldl measureOne { elapsed := e, total_strings := wrapLong a, total_chars := wrapLong b } =
        { elapsed := e, total_strings := wrapLong (a + validCount strings),
          total_chars := wrapLong (b + validChars strings) } := by
  induction strings with
  | nil => intro e a b; simp [validCount, validChars]
  | cons s rest ih =>
    intro e a b
    by_cases hv : s.valid = true
    · have hc : validCount (s :: rest) = validCount rest + 1 := by simp [validCount, hv]
      have hs : validChars (s :: rest) = s.num_chars + validChars rest := by simp [validChars, hv]
      simp only [List.foldl_cons, measureOne, hv, if_true, wrapLong_add, ih, hc, hs]
      congr 2 <;> push_cast <;> ring
    · have hv2 : s.valid = false := by simpa using hv
      have hc : validCount (s :: rest) = validCount rest := by simp [validCount, hv2]
      have hs : validChars (s :: rest) = validChars rest := by simp [validChars, hv2]
      simp only [List.foldl_cons, measureOne, hv2, hc, hs, Bool.false_eq_true, if_false]
      exact ih e a b

theorem iterate_measure (strings : List Str) (e : Int) :
    ∀ n : Nat,
      Nat.iterate (fun r => strings.foldl measureOne r) n
          { elapsed := e, total_strings := 0, total_chars := 0 } =
        { elapsed := e, total_strings := wrapLong (n * validCount strings),
          total_chars := wrapLong (n * validChars strings) } := by
  intro n
  induction n with
  | zero => simp [wrapLong]
  | succ n ih =>
    rw [Function.iterate_succ_apply', ih, foldl_measureOne]
    congr 2 <;> push_cast <;> ring

theorem measureInto_eq (results : LanguageResults) (set : StringSet) (num_iters ticks : Int) :
    measureInto results set num_iters ticks = measure_strings set num_iters ticks := rfl

theorem measure_strings_closed (set : StringSet) (num_iters ticks : Int) :
    measure_strings set num_iters ticks =
      { elapsed := ticks
        total_strings := wrapLong (num_iters.toNat * validCount set.strings)
        total_chars := wrapLong (num_iters.toNat * validChars set.strings) } := by
  unfold measure_strings
  simp only [iterate_measure]

theorem validChars_nonneg (strings : List Str)
    (h : ∀ s ∈ strings, s.valid = true → 0 ≤ s.num_chars) : 0 ≤ validChars strings := by
  unfold validChars
  apply List.sum_nonneg
  intro x hx
  obtain ⟨s, hs, rfl⟩ := List.mem_map.1 hx
  exact h s (List.mem_of_mem_filter hs) (List.of_mem_filter hs)

theorem validCount_filter (strings : List Str) :
    validCount (strings.filter (fun s => s.valid)) = validCount strings := by
  simp [validCount, List.filter_filter]

theorem validChars_filter (strings : List Str) :
    validChars (strings.filter (fun s => s.valid)) = validChars strings := by
  simp [validChars, List.filter_filter]

/-- C13, counterexample: with one valid string whose `num_chars` is `-2^31`, 20
iterations end with `total_chars = -42949672960`, a negative total; and with three
valid strings of `2^31 - 1` characters, `2^31 - 1` iterations end with a
`total_chars` that is not the product, which does not fit a `long`. -/
theorem measure_strings_negative_total :
    (measureInto staleResults setNegativeChars 20 0).total_chars = -42949672960 ∧
      (measureInto staleResults setLongStrings 2147483647 0).total_chars ≠
        2147483647 * validChars setLongStrings.strings := by
  constructor
  · rw [measureInto_eq, measure_strings_closed]
    decide
  · rw [measureInto_eq, measure_strings_closed]
    decide

/-- C13, amended: for every string set, every earlier content of the results record
and every iteration count `n ≥ 0` for which `n * (number of valid strings)` and
`n * (sum of num_chars over the valid strings)` fit a `long`, `measure_strings` ends
with `total_strings` and `total_chars` equal to these products; strings flagged
invalid add nothing to either total; `total_strings` is non-negative, and
`total_chars` is non-negative when no valid string has a negative `num_chars`. -/
theorem measure_strings_totals (results : LanguageResults) (set : StringSet) (n ticks : Int)
    (hn : 0 ≤ n)
    (hs : n * (validCount set.strings : Int) < 2 ^ 63)
    (hc1 : -2 ^ 63 ≤ n * validChars set.strings)
    (hc2 : n * validChars set.strings < 2 ^ 63) :
    (measureInto results set n ticks).total_strings = n * (validCount set.strings : Int) ∧
      (measureInto results set n ticks).total_chars = n * validChars set.strings ∧
      measureInto results set n ticks =
        measureInto results { set with strings := set.strings.filter (fun s => s.valid) } n ticks ∧
      0 ≤ (measureInto results set n ticks).total_strings ∧
      ((∀ s ∈ set.strings, s.valid = true → 0 ≤ s.num_chars) →
        0 ≤ (measureInto results set n ticks).total_chars) := by
  have hcast : ((n.toNat : Nat) : Int) = n := Int.toNat_of_nonneg hn
  have hcount : (0 : Int) ≤ n * (validCount set.strings : Int) :=
    mul_nonneg hn (Int.natCast_nonneg _)
  have h1 : (measureInto results set n ticks).total_strings = n * (validCount set.strings : Int) := by
    rw [measureInto_eq, measure_strings_closed]
    simp only [hcast]
    exact wrapLong_of_range _ (by omega) hs
  have h2 : (measureInto results set n ticks).total_chars = n * validChars set.strings := by
    rw [measureInto_eq, measure_strings_closed]
    simp only [hcast]
    exact wrapLong_of_range _ hc1 hc2
  refine ⟨h1, h2, ?_, by rw [h1]; exact hcount, ?_⟩
  · rw [measureInto_eq, measureInto_eq, measure_strings_closed, measure_strings_closed]
    simp only [validCount_filter, validChars_filter]
  · intro hpos
    rw [h2]
    exact mul_nonneg hn (validChars_nonneg _ hpos)

/-- C13, amended, at a set of a string of two characters, an invalid string and a
string of three characters: 20 iterations end with 40 strings and 100 characters. -/
theorem measure_strings_totals_witness :
    (measureInto staleResults setSample 20 0).total_strings = 40 ∧
      (measureInto staleResults setSample 20 0).total_chars = 100 := by
  have h := measure_strings_totals staleResults setSample 20 0 (by decide) (by decide)
    (by decide) (by decide)
  exact ⟨h.1.trans (by decide), h.2.1.trans (by decide)⟩

end Pango

namespace Pngbench

theorem excessBits_spec :
    ∀ (fuel n : Nat), n ≤ fuel →
      (n < 2 ^ 53 → excessBits fuel n = 0) ∧
      (2 ^ 53 ≤ n → 1 ≤ excessBits fuel n ∧ 2 ^ (52 + excessBits fuel n) ≤ n ∧
        n < 2 ^ (53 + excessBits fuel n)) := by
  intro fuel
  induction fuel with
  | zero =>
    intro n hn
    have : n = 0 := by omega
    subst this
    exact ⟨fun _ => rfl, fun h => absurd h (by norm_num)⟩
  | succ f ih =>
    intro n hn
    refine ⟨fun h => by rw [excessBits, if_pos h], fun h => ?_⟩
    have hnot : ¬ n < 2 ^ 53 := by omega
    have hhalf : n / 2 ≤ f := by omega
    obtain ⟨i1, i2⟩ := ih (n / 2) hhalf
    simp only [excessBits, hnot, if_false]
    refine ⟨by omega, ?_, ?_⟩
    · by_cases hs : n / 2 < 2 ^ 53
      · rw [i1 hs]
        show 2 ^ 53 ≤ n
        exact h
      · obtain ⟨-, j2, -⟩ := i2 (by omega)
        have : 2 ^ (52 + (excessBits f (n / 2) + 1)) = 2 * 2 ^ (52 + excessBits f (n / 2)) := by
          rw [← Nat.add_assoc, pow_succ]; ring
        rw [this]
        omega
    · by_cases hs : n / 2 < 2 ^ 53
      · rw [i1 hs]
        show n < 2 ^ 54
        omega
      · obtain ⟨-, -, j3⟩ := i2 (by omega)
        have : 2 ^ (53 + (excessBits f (n / 2) + 1)) = 2 * 2 ^ (53 + excessBits f (n / 2)) := by
          rw [← Nat.add_assoc, pow_succ]; ring
        rw [this]
        omega

/-- Rounding to 53 bits moves a number below `2^B` by at most `2^(B-54)`: half a
unit in the last place. -/
theorem roundNat_error (n B : Nat) (hB : 54 ≤ B) (hn : n < 2 ^ B) :
    (roundNat n : Int) - n ≤ 2 ^ (B - 54) ∧ (n : Int) - roundNat n ≤ 2 ^ (B - 54) := by
  obtain ⟨s1, s2⟩ := excessBits_spec n n (le_refl n)
  have hpos : (0 : Int) ≤ 2 ^ (B - 54) := by positivity
  by_cases hsmall : n < 2 ^ 53
  · have : roundNat n = n := by simp [roundNat, s1 hsmall]
    rw [this]
    constructor <;> omega
  · unfold roundNat
    simp only []
    generalize excessBits n n = e at s1 s2 ⊢
    obtain ⟨e1, e2, e3⟩ := s2 (by omega)
    have he0 : e ≠ 0 := by omega
    have hlt : 52 + e < B := by
      by_contra hc
      have : 2 ^ B ≤ 2 ^ (52 + e) := Nat.pow_le_pow_right (by norm_num) (by omega)
      omega
    have hhalf : 2 ^ (e - 1) ≤ 2 ^ (B - 54) := Nat.pow_le_pow_right (by norm_num) (by omega)
    have hdouble : 2 ^ e = 2 * 2 ^ (e - 1) := by
      conv_lhs => rw [show e = (e - 1) + 1 by omega, pow_succ]
      ring
    have hdiv := Nat.div_add_mod n (2 ^ e)
    have hmod : n % 2 ^ e < 2 ^ e := Nat.mod_lt _ (by positivity)
    have hmul : (n / 2 ^ e + 1) * 2 ^ e = n / 2 ^ e * 2 ^ e + 2 ^ e := by ring
    have hcomm : 2 ^ e * (n / 2 ^ e) = n / 2 ^ e * 2 ^ e := by ring
    have hhalfZ : ((2 ^ (e - 1) : Nat) : Int) ≤ 2 ^ (B - 54) := by exact_mod_cast hhalf
    rw [if_neg he0, hmul]
    rw [hcomm] at hdiv
    generalize n / 2 ^ e * 2 ^ e = X at *
    generalize n % 2 ^ e = r at *
    generalize 2 ^ e = P at *
    generalize 2 ^ (e - 1) = h at *
    generalize (2 : Int) ^ (B - 54) = bound at *
    split_ifs <;> push_cast <;> constructor <;> omega

theorem roundDouble_error (x : Int) (B : Nat) (hB : 54 ≤ B) (h0 : 0 ≤ x) (hx : x < 2 ^ B) :
    0 ≤ roundDouble x ∧ roundDouble x - x ≤ 2 ^ (B - 54) ∧ x - roundDouble x ≤ 2 ^ (B - 54) := by
  obtain ⟨n, rfl⟩ := Int.eq_ofNat_of_zero_le h0
  have hn : n < 2 ^ B := by exact_mod_cast hx
  obtain ⟨e1, e2⟩ := roundNat_error n B hB hn
  have hr : roundDouble (n : Int) = (roundNat n : Int) := by
    simp [roundDouble]
  rw [hr]
  exact ⟨Int.natCast_nonneg _, e1, e2⟩

theorem msDouble_error (fused : Bool) (secs nsecs : Int)
    (hs0 : 0 ≤ secs) (hs1 : secs < 2 ^ 31) (hn0 : 0 ≤ nsecs) (hn1 : nsecs < 1000000000) :
    0 ≤ msDouble fused secs nsecs ∧
      msDouble fused secs nsecs * 1000000 - (secs * 1000000000 + nsecs) * 2 ^ 72 ≤
        2 ^ 61 * 1000000 ∧
      (secs * 1000000000 + nsecs) * 2 ^ 72 - msDouble fused secs nsecs * 1000000 ≤
        2 ^ 61 * 1000000 := by
  have e59 : (2 : Int) ^ (113 - 54) = 576460752303423488 := by norm_num
  have e29 : (2 : Int) ^ (83 - 54) = 536870912 := by norm_num
  have e60 : (2 : Int) ^ (114 - 54) = 1152921504606846976 := by norm_num
  obtain ⟨a0, a1, a2⟩ := roundDouble_error (1000 * secs * 2 ^ 72) 113 (by norm_num)
    (by omega) (by omega)
  obtain ⟨p0, p1, p2⟩ := roundDouble_error (nsecs * microDouble) 83 (by norm_num)
    (by unfold microDouble; omega) (by unfold microDouble; omega)
  rw [e59] at a1 a2
  rw [e29] at p1 p2
  cases fused with
  | true =>
    obtain ⟨s0, s1, s2⟩ := roundDouble_error
      (roundDouble (1000 * secs * 2 ^ 72) + nsecs * microDouble) 114 (by norm_num)
      (by unfold microDouble at *; omega) (by unfold microDouble at *; omega)
    rw [e60] at s1 s2
    simp only [msDouble, if_true]
    generalize roundDouble (roundDouble (1000 * secs * 2 ^ 72) + nsecs * microDouble) = s at *
    generalize roundDouble (1000 * secs * 2 ^ 72) = a at *
    unfold microDouble at *
    refine ⟨s0, ?_, ?_⟩ <;> omega
  | false =>
    obtain ⟨s0, s1, s2⟩ := roundDouble_error
      (roundDouble (1000 * secs * 2 ^ 72) + roundDouble (nsecs * microDouble)) 114 (by norm_num)
      (by omega) (by unfold microDouble at *; omega)
    rw [e60] at s1 s2
    simp only [msDouble, Bool.false_eq_true, if_false]
    generalize roundDouble (roundDouble (1000 * secs * 2 ^ 72) + roundDouble (nsecs * microDouble))
      = s at *
    generalize roundDouble (1000 * secs * 2 ^ 72) = a at *
    generalize roundDouble (nsecs * microDouble) = p at *
    unfold microDouble at *
    refine ⟨s0, ?_, ?_⟩ <;> omega

/-- C14, counterexample: for the readings 0 s and 2147483647 s + 1 ns, which meet
every condition of the claim, the borrow step gives `secs = 2147483647` and
`nsecs = 1`, and the `double` reported is `2147483647000` ms exactly, with or
without a fused multiply-add: the nanosecond is lost, the true elapsed time being
`2147483647000.000001` ms. -/
theorem elapsed_reported_loses_nanosecond :
    elapsed readingStart readingLate = (2147483647, 1) ∧
      msDouble false (elapsed readingStart readingLate).1 (elapsed readingStart readingLate).2 =
        2147483647000 * 2 ^ 72 ∧
      msDouble true (elapsed readingStart readingLate).1 (elapsed readingStart readingLate).2 =
        2147483647000 * 2 ^ 72 ∧
      (2147483647000 * 2 ^ 72 : Int) * 1000000 ≠ (2147483647 * 1000000000 + 1) * 2 ^ 72 := by
  decide

/-- C14, amended: for clock readings `before ≤ after` with nanosecond fields in
`[0, 10^9)` whose difference of seconds fits an `int`, the borrow step leaves
`0 ≤ nsecs < 10^9` and `secs ≥ 0` with `secs * 10^9 + nsecs` equal to the exact
difference in nanoseconds; the `double` reported, `ms`, is non-negative and
differs from the true elapsed time by at most `2^-11` ms (both sides are
multiplied by `10^6 * 2^72` in the statement). -/
theorem elapsed_exact (fused : Bool) (before after : Int × Int)
    (hb1 : 0 ≤ before.2) (hb2 : before.2 < 1000000000)
    (ha1 : 0 ≤ after.2) (ha2 : after.2 < 1000000000)
    (hle : before.1 * 1000000000 + before.2 ≤ after.1 * 1000000000 + after.2)
    (hf1 : -2 ^ 31 ≤ after.1 - before.1) (hf2 : after.1 - before.1 < 2 ^ 31) :
    0 ≤ (elapsed before after).2 ∧ (elapsed before after).2 < 1000000000 ∧
      0 ≤ (elapsed before after).1 ∧
      (elapsed before after).1 * 1000000000 + (elapsed before after).2 =
        (after.1 * 1000000000 + after.2) - (before.1 * 1000000000 + before.2) ∧
      0 ≤ msDouble fused (elapsed before after).1 (elapsed before after).2 ∧
      msDouble fused (elapsed before after).1 (elapsed before after).2 * 1000000 -
          ((after.1 * 1000000000 + after.2) - (before.1 * 1000000000 + before.2)) * 2 ^ 72 ≤
        2 ^ 61 * 1000000 ∧
      ((after.1 * 1000000000 + after.2) - (before.1 * 1000000000 + before.2)) * 2 ^ 72 -
          msDouble fused (elapsed before after).1 (elapsed before after).2 * 1000000 ≤
        2 ^ 61 * 1000000 := by
  have key : 0 ≤ (elapsed before after).2 ∧ (elapsed before after).2 < 1000000000 ∧
      0 ≤ (elapsed before after).1 ∧ (elapsed before after).1 < 2 ^ 31 ∧
      (elapsed before after).1 * 1000000000 + (elapsed before after).2 =
        (after.1 * 1000000000 + after.2) - (before.1 * 1000000000 + before.2) := by
    unfold elapsed toInt32
    simp only []
    split_ifs <;> refine ⟨?_, ?_, ?_, ?_, ?_⟩ <;> simp only [] <;> omega
  obtain ⟨k1, k2, k3, k5, k4⟩ := key
  obtain ⟨m0, m1, m2⟩ := msDouble_error fused (elapsed before after).1 (elapsed before after).2
    k3 k5 k1 k2
  rw [k4] at m1 m2
  exact ⟨k1, k2, k3, k4, m0, m1, m2⟩

/-- C14, amended, at the readings 5.9 s and 7.1 s: one second and 200000000 ns, and a
reported time within the bound of 1200 ms. -/
theorem elapsed_exact_witness :
    elapsed readingBefore readingAfter = (1, 200000000) ∧
      0 ≤ msDouble false (elapsed readingBefore readingAfter).1
        (elapsed readingBefore readingAfter).2 ∧
      msDouble false (elapsed readingBefore readingAfter).1
            (elapsed readingBefore readingAfter).2 * 1000000 -
          ((readingAfter.1 * 1000000000 + readingAfter.2) -
            (readingBefore.1 * 1000000000 + readingBefore.2)) * 2 ^ 72 ≤
        2 ^ 61 * 1000000 :=
  ⟨by decide,
    (elapsed_exact false readingBefore readingAfter (by decide) (by decide) (by decide)
      (by decide) (by decide) (by decide) (by decide)).2.2.2.2.1,
    (elapsed_exact false readingBefore readingAfter (by decide) (by decide) (by decide)
      (by decide) (by decide) (by decide) (by decide)).2.2.2.2.2.1⟩

/-- For one second and 200000000 ns the `double` reported is 1200 ms exactly. -/
theorem msDouble_sample : msDouble false 1 200000000 = 1200 * 2 ^ 72 := by
  decide

end Pngbench
